import Mathlib

/-!
# websocket_client: frame encoder and frame decoder

A shallow embedding of `src/websocket_client.h`: the frame encoder
(`encode_frame`), the read-exactly-N routine (`receive_partial_frame`), the
frame decoder (`receive_frame`, `receive_data_frame`), the send loop
(`send_frame`), the handshake (`perform_handshake`) and the life cycle of the
client (the constructor, `close_client`).

Conventions of the embedding.

* A byte is a `Nat` below 256; a `byte_string` is a `List Nat`.
* The socket behind `_fd` is a `Conn`: the bytes the peer has sent and that
  have not been consumed yet (`stream`), and a `plan` saying, for each
  successive call of `recv`, how many bytes the kernel hands over at most (or
  that the call fails).  A `recv` on an exhausted stream returns 0 (the peer
  has closed).
* The callback passed to `receive_frame` is modelled by the trace `calls`: an
  invocation `callback(opcode, payload)` appends `(opcode, payload)` to it.
* The outbound side of the socket is the list of values the successive calls
  of `send` return; a run of a send loop on a finite list of answers either
  ends (`returned`, `thrown`) or is left `pending`.
* The descriptors of the process are a `Process`; a `Client` holds the data
  members of the object.
* A buffer obtained from `new` lies in a block of `usable_size n` bytes: a
  store of the program or of `recv` at an index inside the block lands, also
  past the `n` bytes of the array (the terminator written at
  `buffer[total_bytes_read]`); a store outside the block ends the run in
  `Fault.overrun`, and a store past the array `buffer[1024]` on the stack of
  `perform_handshake` ends it in `SetupFault.overrun`.  A read
  of memory that the program never wrote has no value fixed by the program:
  the embedding carries it as `none`, and a run that *uses* such a value
  ends in `Fault.indeterminate`.
-/

deriving instance DecidableEq for Except

namespace websocket_client

/-- The enumeration `opcode_type_t`. -/
inductive opcode_type_t
  | CONTINUATION
  | TEXT
  | BINARY
  | CLOSE
  | PING
  | PONG
  deriving DecidableEq, Repr

/-- The enumerator values of `opcode_type_t`. -/
def opcode_type_t.val : opcode_type_t → Nat
  | .CONTINUATION => 0x00
  | .TEXT => 0x01
  | .BINARY => 0x02
  | .CLOSE => 0x08
  | .PING => 0x09
  | .PONG => 0x0A

/-- The ways a run of the decoder ends other than by returning. -/
inductive Fault
  /-- `websocket_exception("received fragmented frame, not currently supported")` -/
  | fragmented
  /-- `websocket_exception("received unsupported opcode")` -/
  | unsupported_opcode
  /-- `websocket_exception("server hungup while receiving partial frame")` -/
  | hungup
  /-- `websocket_exception(strerror(errno))` after a failed `recv` -/
  | transport_error
  /-- `new unsigned char[n]` with a negative `n` -/
  | bad_array_new_length
  /-- The run used a value the program never wrote, or overflowed an `int`. -/
  | indeterminate
  /-- `std::bad_alloc`: `new unsigned char[n]` with `n` beyond what the
  allocator grants -/
  | bad_alloc
  /-- A byte was stored outside the block the buffer was given: the heap is
  corrupted and the behaviour is no longer fixed by the program. -/
  | overrun
  deriving DecidableEq, Repr

/-- One answer of the transport to a call of `recv`. -/
inductive RecvStep
  /-- Hand over at most `k` bytes (at least one when any is pending). -/
  | chunk (k : Nat)
  /-- Return -1. -/
  | error
  deriving DecidableEq, Repr

/-- The connection behind `_fd`, together with the trace of callback
invocations. -/
structure Conn where
  /-- Bytes sent by the peer and not yet consumed. -/
  stream : List Nat
  /-- Answers of the transport to the successive calls of `recv`; once the
  plan is used up every call hands over all it is asked for. -/
  plan : List RecvStep
  /-- Invocations of the callback so far, oldest first. -/
  calls : List (Nat × List Nat)
  deriving DecidableEq, Repr

/-- Largest count a single `recv` returns (Linux `MAX_RW_COUNT`); it fits the
`int` the result is stored in. -/
def MAX_RW_COUNT : Nat := 0x7ffff000

/-- The system call `recv(_fd, buf, len, 0)` on a blocking socket: the value
returned, the bytes stored at `buf`, and the connection afterwards. -/
def recv (c : Conn) (len : Nat) : Int × List Nat × Conn :=
  match c.plan with
  | RecvStep.error :: rest => (-1, [], { c with plan := rest })
  | RecvStep.chunk k :: rest =>
    let n := min (max k 1) (min (min len MAX_RW_COUNT) c.stream.length)
    (n, c.stream.take n, { c with stream := c.stream.drop n, plan := rest })
  | [] =>
    let n := min (min len MAX_RW_COUNT) c.stream.length
    (n, c.stream.take n, { c with stream := c.stream.drop n })

/-- The bytes of the NUL-terminated string that starts at the beginning of
`mem`: what `byte_string(const unsigned char *)` copies. -/
def c_string (mem : List Nat) : List Nat :=
  mem.takeWhile (fun b => b != 0)

/-- The expression `s[i]` on a `byte_string`: the byte at `i` below the size,
the terminator at `i = size`, and no value fixed by the program beyond. -/
def byte_string_at (s : List Nat) (i : Nat) : Option Nat :=
  (s ++ [0])[i]?

/-- The bytes of the block that `new unsigned char[n]` obtains from the
allocator (`malloc` of glibc on a 64-bit system: the request plus 8 bytes
rounded up to a multiple of 16, less 8, and 24 at least; blocks served by
`mmap` are not smaller).  A store at an index below it stays inside the
block; the array itself has `n` bytes. -/
def usable_size (n : Nat) : Nat :=
  max 24 ((n + 8 + 15) / 16 * 16 - 8)

/-- The largest request the allocator grants (the user address space of
x86-64 Linux); memory is taken to suffice below it. -/
def ALLOC_MAX : Nat := 2 ^ 47

/-- The `while (total_bytes_read < receive_size)` loop of
`receive_partial_frame`.  `buffer` holds the bytes stored so far, so that
`buffer + total_bytes_read` is its end.  After each `recv` the terminator is
stored at `buffer[total_bytes_read]`, an index that is `receive_size` at
least on the last turn: the run goes on only while that index is inside the
block of the buffer.  Every turn that does not throw adds at least one byte,
so `receive_size` turns of fuel are never used up. -/
def receive_loop (receive_size : Int) :
    Nat → Int → List Nat → Conn → Conn × Except Fault (List Nat)
  | 0, total_bytes_read, buffer, c =>
    if total_bytes_read < receive_size then (c, .error .indeterminate)
    else (c, .ok buffer)
  | fuel + 1, total_bytes_read, buffer, c =>
    if total_bytes_read < receive_size then
      match recv c receive_size.toNat with
      | (bytes_read, stored, c1) =>
        if bytes_read ≤ 0 then
          if bytes_read = 0 then (c1, .error .hungup)
          else (c1, .error .transport_error)
        else if 2 ^ 31 ≤ total_bytes_read + bytes_read then
          (c1, .error .indeterminate)
        else if (usable_size receive_size.toNat : Int) ≤ total_bytes_read + bytes_read then
          (c1, .error .overrun)
        else
          receive_loop receive_size fuel (total_bytes_read + bytes_read)
            (buffer ++ stored) c1
    else (c, .ok buffer)

/-- The function `receive_partial_frame(int64_t receive_size)`.  After the
last turn of the loop the buffer holds the bytes stored followed by the
terminator written at `buffer[total_bytes_read]`; the result is built from it
as a NUL-terminated string.  When the loop does not run at all the buffer was
never written.  `new` throws for a negative size and for one the allocator
does not grant. -/
def receive_partial_frame (receive_size : Int) (c : Conn) :
    Conn × Except Fault (List Nat) :=
  if receive_size < 0 then (c, .error .bad_array_new_length)
  else if (ALLOC_MAX : Int) < receive_size then (c, .error .bad_alloc)
  else
    match receive_loop receive_size receive_size.toNat 0 [] c with
    | (c1, .error e) => (c1, .error e)
    | (c1, .ok []) => (c1, .error .indeterminate)
    | (c1, .ok (b :: bs)) => (c1, .ok (c_string ((b :: bs) ++ [0])))

/-- Conversion of a `uint64_t` value to `int64_t`. -/
def to_int64 (n : Nat) : Int :=
  if n % 2 ^ 64 < 2 ^ 63 then ((n % 2 ^ 64 : Nat) : Int)
  else ((n % 2 ^ 64 : Nat) : Int) - 2 ^ 64

/-- The first block of `receive_data_frame`: the 7-bit length field is
replaced by the extended length when it is 126 or 127. -/
def resolve_payload_length (payload_length : Int) (c : Conn) :
    Conn × Except Fault Int :=
  if payload_length = 126 then
    match receive_partial_frame 2 c with
    | (c1, .error e) => (c1, .error e)
    | (c1, .ok length_header) =>
      match byte_string_at length_header 0, byte_string_at length_header 1 with
      | some h0, some h1 => (c1, .ok (((h0 <<< 8) ||| h1 : Nat) : Int))
      | _, _ => (c1, .error .indeterminate)
  else if payload_length = 127 then
    match receive_partial_frame 8 c with
    | (c1, .error e) => (c1, .error e)
    | (c1, .ok length_header) =>
      match (do
        let h0 ← byte_string_at length_header 0
        let h1 ← byte_string_at length_header 1
        let h2 ← byte_string_at length_header 2
        let h3 ← byte_string_at length_header 3
        let h4 ← byte_string_at length_header 4
        let h5 ← byte_string_at length_header 5
        let h6 ← byte_string_at length_header 6
        let h7 ← byte_string_at length_header 7
        pure ((h0 <<< 56) ||| (h1 <<< 48) ||| (h2 <<< 40) ||| (h3 <<< 32) |||
          (h4 <<< 24) ||| (h5 <<< 16) ||| (h6 <<< 8) ||| h7) : Option Nat) with
      | some value => (c1, .ok (to_int64 value))
      | none => (c1, .error .indeterminate)
  else (c, .ok payload_length)

/-- The unmasking loop of `receive_data_frame`, from index `i` on:
`payload[i] = payload[i] ^ mask_header[i % 4]`. -/
def unmask (mask_header : List Nat) : Nat → List Nat → Option (List Nat)
  | _, [] => some []
  | i, p :: ps =>
    match byte_string_at mask_header (i % 4), unmask mask_header (i + 1) ps with
    | some k, some rest => some ((p ^^^ k) :: rest)
    | _, _ => none

/-- The function `receive_data_frame(opcode, masked, payload_length, callback)`. -/
def receive_data_frame (opcode masked : Nat) (payload_length : Int) (c : Conn) :
    Conn × Except Fault Unit :=
  match resolve_payload_length payload_length c with
  | (c1, .error e) => (c1, .error e)
  | (c1, .ok resolved) =>
    match (if masked ≠ 0 then receive_partial_frame 4 c1 else (c1, .ok [])) with
    | (c2, .error e) => (c2, .error e)
    | (c2, .ok mask_header) =>
      match receive_partial_frame resolved c2 with
      | (c3, .error e) => (c3, .error e)
      | (c3, .ok payload) =>
        if masked ≠ 0 then
          match unmask mask_header 0 payload with
          | some unmasked =>
            ({ c3 with calls := c3.calls ++ [(opcode, unmasked)] }, .ok ())
          | none => (c3, .error .indeterminate)
        else ({ c3 with calls := c3.calls ++ [(opcode, payload)] }, .ok ())

/-- The function `receive_frame(callback)`.  `default_header[1]` is beyond
the terminator when the first header byte is zero; its value is then used by
no branch taken. -/
def receive_frame (c : Conn) : Conn × Except Fault Unit :=
  match receive_partial_frame 2 c with
  | (c1, .error e) => (c1, .error e)
  | (c1, .ok default_header) =>
    let h0 := (byte_string_at default_header 0).getD 0
    let h1 := byte_string_at default_header 1
    let fin := (h0 >>> 7) &&& 0x01
    let opcode := h0 &&& 0x0F
    let masked := h1.map (fun b => (b >>> 7) &&& 0x01)
    let payload_length := h1.map (fun b => ((b &&& 0xFFFFFF7F : Nat) : Int))
    if fin = 0 ∨ opcode = opcode_type_t.CONTINUATION.val then
      (c1, .error .fragmented)
    else if opcode = opcode_type_t.BINARY.val ∨ opcode = opcode_type_t.TEXT.val then
      match masked, payload_length with
      | some m, some n => receive_data_frame opcode m n c1
      | _, _ => (c1, .error .indeterminate)
    else if opcode = opcode_type_t.CLOSE.val ∨ opcode = opcode_type_t.PING.val
        ∨ opcode = opcode_type_t.PONG.val then
      ({ c1 with calls := c1.calls ++ [(opcode, [])] }, .ok ())
    else (c1, .error .unsupported_opcode)

/-- The mask bytes of `encode_frame`: four calls of `rand()`, returning
`r0`, `r1`, `r2`, `r3` in this order, each stored as
`(unsigned char)(rand() % 256 + 1)`. -/
def masks (r0 r1 r2 r3 : Nat) : List Nat :=
  [(r0 % 256 + 1) % 256, (r1 % 256 + 1) % 256, (r2 % 256 + 1) % 256,
    (r3 % 256 + 1) % 256]

/-- The masking loop of `encode_frame`, from index `i` on:
`payload[i] = payload[i] ^ masks[i % 4]`. -/
def mask_payload (masks : List Nat) : Nat → List Nat → List Nat
  | _, [] => []
  | i, p :: ps => (p ^^^ masks.getD (i % 4) 0) :: mask_payload masks (i + 1) ps

/-- The bytes `encode_frame` pushes before the mask key, for a payload of
`length` bytes (`data.empty()` is `length = 0`), with the mask bit toggled on
`buffer[1]`. -/
def encode_header (opcode : opcode_type_t) (length : Nat) : List Nat :=
  let buffer := [(opcode.val % 256) ||| 0x80]
  let buffer :=
    if length = 0 then buffer ++ [0]
    else if length ≤ 125 then buffer ++ [length % 256]
    else if length ≤ 65535 then
      buffer ++ [126, (length >>> 8) &&& 0xFF, length &&& 0xFF]
    else
      buffer ++ [127, 0, 0, 0, 0, (length >>> (8 * 3)) &&& 0xFF,
        (length >>> (8 * 2)) &&& 0xFF, (length >>> (8 * 1)) &&& 0xFF,
        (length >>> (8 * 0)) &&& 0xFF]
  buffer.set 1 (buffer.getD 1 0 ||| 0x80)

/-- The function `encode_frame(opcode, data)`; `r0 .. r3` are the values the
four calls of `rand()` return. -/
def encode_frame (opcode : opcode_type_t) (data : List Nat) (r0 r1 r2 r3 : Nat) :
    List Nat :=
  let buffer := encode_header opcode data.length
  let buffer := buffer ++ masks r0 r1 r2 r3
  if data.length ≠ 0 then buffer ++ mask_payload (masks r0 r1 r2 r3) 0 data
  else buffer

/-- A connection on which the peer has sent `bytes`, the transport handing
over all that each `recv` asks for, and no callback invoked yet. -/
def inbound (bytes : List Nat) : Conn :=
  { stream := bytes, plan := [], calls := [] }

/-- A plan none of whose steps fails: every `recv` hands over at least one
byte while any is pending. -/
abbrev no_error (plan : List RecvStep) : Prop :=
  ∀ s ∈ plan, s ≠ RecvStep.error

/-- Big-endian value of a sequence of bytes. -/
def big_endian (bytes : List Nat) : Nat :=
  bytes.foldl (fun acc b => acc * 256 + b) 0

/-- The 7-bit length field of a frame: the low 7 bits of byte 1. -/
def length_field (frame : List Nat) : Nat :=
  frame.getD 1 0 &&& 0x7F

/-- The payload length a frame declares, as a reader of the wire format
resolves it: the length field when it is below 126, the 2-byte big-endian
extension when it is 126, the 8-byte big-endian extension when it is 127. -/
def declared_length (frame : List Nat) : Nat :=
  if length_field frame < 126 then length_field frame
  else if length_field frame = 126 then big_endian ((frame.drop 2).take 2)
  else big_endian ((frame.drop 2).take 8)

/-! ## Sending, the handshake and the life cycle of the client -/

/-- Conversion of an integer value to `int`. -/
def to_int (x : Int) : Int :=
  (x + 2 ^ 31) % 2 ^ 32 - 2 ^ 31

/-- The ways the send loop of `send_frame` and `perform_handshake` stands
after the transport has given a finite list of answers. -/
inductive SendOutcome
  /-- The loop ended: `bytes_sent == len`. -/
  | returned
  /-- `websocket_exception(strerror(errno))` was thrown. -/
  | thrown
  /-- The loop is still running, about to call `send` again. -/
  | pending (bytes_sent : Int)
  deriving DecidableEq, Repr

/-- The loop `while (bytes_sent != len)` of `send_frame` and
`perform_handshake`.  The list holds the values the successive calls of
`send` return (a count accepted, or -1); each is added to `bytes_sent` and
the exception is thrown when the sum is -1.  (Every call asks the transport
for `len` bytes from `request + bytes_sent`.) -/
def send_loop (len : Int) : List Int → Int → SendOutcome
  | [], bytes_sent => if bytes_sent ≠ len then .pending bytes_sent else .returned
  | r :: results, bytes_sent =>
    if bytes_sent ≠ len then
      if to_int (bytes_sent + r) = -1 then .thrown
      else send_loop len results (to_int (bytes_sent + r))
    else .returned

/-- The function `send_frame(type, data)` on a descriptor whose successive
`send` calls return `results`; `r0 .. r3` are the values of `rand()`. -/
def send_frame (type : opcode_type_t) (data : List Nat) (r0 r1 r2 r3 : Nat)
    (results : List Int) : SendOutcome :=
  send_loop (to_int (encode_frame type data r0 r1 r2 r3).length) results 0

/-- The exceptions thrown by the constructor and by `perform_handshake`. -/
inductive SetupFault
  /-- `websocket_exception(strerror(errno))` after `connect` returned -1 -/
  | connect_error
  /-- `websocket_exception(strerror(errno))` in the send loop -/
  | send_error
  /-- `websocket_exception("server hungup during handshake")` -/
  | hungup
  /-- `websocket_exception(strerror(errno))` after a failed `recv` -/
  | recv_error
  /-- `websocket_exception("websocket handshake failed, HTTP status 101 was
  not returned from handshake")` -/
  | no_101
  /-- The terminator was stored at `buffer[1024]`, outside `char buffer[1024]`:
  the stack is corrupted and the behaviour is no longer fixed by the program. -/
  | overrun
  deriving DecidableEq, Repr

/-- The bytes of `"\r\n\r\n"`. -/
def header_end : List Nat := [13, 10, 13, 10]

/-- The bytes of `"101 Switching Protocols"`. -/
def switching_protocols : List Nat :=
  [49, 48, 49, 32, 83, 119, 105, 116, 99, 104, 105, 110, 103, 32,
    80, 114, 111, 116, 111, 99, 111, 108, 115]

/-- The request `perform_handshake` writes to its `stringstream`. -/
def handshake_request (host : String) (port : Int) (endpoint : String) : List Char :=
  ("GET ws://" ++ host ++ ":" ++ toString port ++ endpoint ++ " HTTP /1.1\r\n"
    ++ "Host:" ++ host ++ ":" ++ toString port ++ "\r\n"
    ++ "Connection: Upgrade\r\n"
    ++ "Upgrade: websocket\r\n"
    ++ "Origin: null\r\n"
    ++ "Sec-WebSocket-Version: 13\r\n"
    ++ "Sec-WebSocket-Key: l3ghee7Qd0GV/SLU1K6P7g==\r\n\r\n").toList

/-- The value of `strlen(request)`. -/
def strlen (request : List Char) : Nat :=
  (request.takeWhile (fun ch => ch != Char.ofNat 0)).length

/-- The loop `while (http_response.find("\r\n\r\n") == npos)` of
`perform_handshake`: each turn asks `recv` for 1024 bytes, writes the
terminator after the bytes stored (at `buffer[bytes_read]`, which is outside
`char buffer[1024]` when all 1024 bytes arrive) and appends the buffer to
`http_response` as a NUL-terminated string.  Every turn that does not throw consumes at
least one byte, so one turn of fuel more than bytes pending is never used
up. -/
def response_loop : Nat → List Nat → Conn → Conn × Except SetupFault (List Nat)
  | 0, http_response, c =>
    if header_end <:+: http_response then (c, .ok http_response)
    else (c, .error .hungup)
  | fuel + 1, http_response, c =>
    if ¬ header_end <:+: http_response then
      match recv c 1024 with
      | (bytes_read, stored, c1) =>
        if bytes_read ≤ 0 then
          if bytes_read = 0 then (c1, .error .hungup)
          else (c1, .error .recv_error)
        else if 1024 ≤ bytes_read then (c1, .error .overrun)
        else response_loop fuel (http_response ++ c_string (stored ++ [0])) c1
    else (c, .ok http_response)

/-- The function `perform_handshake()`: `results` are the values returned by
the successive calls of `send`, `c` is the inbound side of the connection.
The result is `none` when the answers given leave the send loop running. -/
def perform_handshake (host : String) (port : Int) (endpoint : String)
    (results : List Int) (c : Conn) : Option (Conn × Except SetupFault Unit) :=
  match send_loop (to_int (strlen (handshake_request host port endpoint))) results 0 with
  | .pending _ => none
  | .thrown => some (c, .error .send_error)
  | .returned =>
    match response_loop (c.stream.length + 1) [] c with
    | (c1, .error e) => some (c1, .error e)
    | (c1, .ok http_response) =>
      if switching_protocols <:+: http_response then some (c1, .ok ())
      else some (c1, .error .no_101)

/-- The data members of a `websocket_client`. -/
structure Client where
  /-- The member `_fd`. -/
  _fd : Int
  /-- The member `_host`. -/
  _host : String
  /-- The member `_port`. -/
  _port : Int
  /-- The member `_endpoint`. -/
  _endpoint : String
  deriving DecidableEq, Repr

/-- The descriptors of the process. -/
structure Process where
  /-- Descriptors that are open. -/
  open_fds : List Int
  /-- Arguments of the calls of `close` made so far, oldest first. -/
  closed : List Int
  deriving DecidableEq, Repr

/-- The function `close_client()`. -/
def close_client (cl : Client) (p : Process) : Client × Process :=
  if cl._fd ≠ 0 then
    ({ cl with _fd := 0 },
      { open_fds := p.open_fds.erase cl._fd, closed := p.closed ++ [cl._fd] })
  else (cl, p)

/-- The constructor `websocket_client(host, port, endpoint)`, the address
being resolved: `sock` is the value `socket` returns (a new descriptor, or
-1), `connect_result` the value `connect` returns, `results` and `c` the two
directions of the connection.  The result is the object when the constructor
returns and the exception when it throws; a throwing constructor runs no
destructor, so nothing is closed on that path. -/
def construct (host : String) (port : Int) (endpoint : String) (sock : Int)
    (connect_result : Int) (results : List Int) (c : Conn) (p : Process) :
    Option (Process × Conn × Except SetupFault Client) :=
  let p1 : Process :=
    if 0 ≤ sock then { p with open_fds := sock :: p.open_fds } else p
  if connect_result = -1 then some (p1, c, .error .connect_error)
  else
    match perform_handshake host port endpoint results c with
    | none => none
    | some (c1, .error e) => some (p1, c1, .error e)
    | some (c1, .ok ()) =>
      some (p1, c1, .ok { _fd := sock, _host := host, _port := port, _endpoint := endpoint })

/-- A descriptor on which `recv` returns -1: closed, or not a socket. -/
def no_socket : Conn :=
  { stream := [], plan := [RecvStep.error], calls := [] }

/-- The function `receive_frame` of a client in a process where descriptor
`fd` is the connection `sockets fd` (`none`: not a socket). -/
def Client.receive_frame (cl : Client) (sockets : Int → Option Conn) :
    Conn × Except Fault Unit :=
  websocket_client.receive_frame ((sockets cl._fd).getD no_socket)

/-- The function `send_frame` of a client in a process where the calls of
`send` on descriptor `fd` return `answers fd`. -/
def Client.send_frame (cl : Client) (type : opcode_type_t) (data : List Nat)
    (r0 r1 r2 r3 : Nat) (answers : Int → List Int) : SendOutcome :=
  websocket_client.send_frame type data r0 r1 r2 r3 (answers cl._fd)

/-! ## The encoder: header bytes -/

/-- The cast of the opcode to `unsigned char` keeps its value. -/
theorem opcode_byte (opcode : opcode_type_t) :
    (opcode.val % 256) ||| 0x80 = 0x80 ||| opcode.val := by
  cases opcode <;> decide

/-- The header of a frame with an empty payload. -/
theorem encode_header_zero (opcode : opcode_type_t) :
    encode_header opcode 0 = [0x80 ||| opcode.val, 0x80] := by
  simp [encode_header, opcode_byte]

theorem small_length_byte : ∀ L, L ≤ 125 → (L % 256) ||| 0x80 = L + 128 := by
  decide

/-- The header of a frame with 1 to 125 payload bytes. -/
theorem encode_header_small (opcode : opcode_type_t) (L : Nat) (h0 : L ≠ 0) (h : L ≤ 125) :
    encode_header opcode L = [0x80 ||| opcode.val, L + 128] := by
  simp [encode_header, opcode_byte, h0, h, small_length_byte L h]

/-- The header of a frame with 126 to 65535 payload bytes. -/
theorem encode_header_medium (opcode : opcode_type_t) (L : Nat) (h : 125 < L) (h2 : L ≤ 65535) :
    encode_header opcode L = [0x80 ||| opcode.val, 254, L / 256 % 256, L % 256] := by
  have h0 : L ≠ 0 := by omega
  have h1 : ¬ L ≤ 125 := by omega
  have e1 : L &&& 255 = L % 256 := Nat.and_pow_two_sub_one_eq_mod L 8
  have e2 : (L >>> 8) &&& 255 = L / 256 % 256 := by
    rw [Nat.and_pow_two_sub_one_eq_mod _ 8, Nat.shiftRight_eq_div_pow]
  simp [encode_header, opcode_byte, h0, h1, h2, e1, e2]

/-- The header of a frame with more than 65535 payload bytes: four zero
bytes, then the low 32 bits of the length. -/
theorem encode_header_large (opcode : opcode_type_t) (L : Nat) (h : 65535 < L) :
    encode_header opcode L = [0x80 ||| opcode.val, 255, 0, 0, 0, 0, L / 2 ^ 24 % 256,
      L / 2 ^ 16 % 256, L / 2 ^ 8 % 256, L % 256] := by
  have h0 : L ≠ 0 := by omega
  have h1 : ¬ L ≤ 125 := by omega
  have h2 : ¬ L ≤ 65535 := by omega
  have e (k : Nat) : (L >>> k) &&& 255 = L / 2 ^ k % 256 := by
    rw [Nat.and_pow_two_sub_one_eq_mod _ 8, Nat.shiftRight_eq_div_pow]
  have e0 : L &&& 255 = L % 256 := Nat.and_pow_two_sub_one_eq_mod L 8
  simp [encode_header, opcode_byte, h0, h1, h2, e, e0]

theorem small_length_field : ∀ L, L ≤ 125 → (L + 128) &&& 0x7F = L := by
  decide

theorem big_endian_two (a b : Nat) : big_endian [a, b] = a * 256 + b := by
  simp [big_endian]

theorem big_endian_eight (a b c d e f g h : Nat) :
    big_endian [a, b, c, d, e, f, g, h] =
      (((((((a * 256 + b) * 256 + c) * 256 + d) * 256 + e) * 256 + f) * 256 + g) * 256 + h) := by
  simp [big_endian]

/-- The output of `encode_frame` is header, mask key and masked payload, also
for an empty payload. -/
theorem encode_frame_eq (opcode : opcode_type_t) (data : List Nat) (r0 r1 r2 r3 : Nat) :
    encode_frame opcode data r0 r1 r2 r3 =
      encode_header opcode data.length ++ masks r0 r1 r2 r3 ++
        mask_payload (masks r0 r1 r2 r3) 0 data := by
  cases data with
  | nil => simp [encode_frame, mask_payload]
  | cons p ps => simp [encode_frame]

/-- The 7-bit length field `encode_frame` writes. -/
theorem length_field_encode (opcode : opcode_type_t) (data : List Nat) (r0 r1 r2 r3 : Nat) :
    length_field (encode_frame opcode data r0 r1 r2 r3) =
      if data.length ≤ 125 then data.length
      else if data.length ≤ 65535 then 126 else 127 := by
  rw [encode_frame_eq]
  by_cases h0 : data.length = 0
  · simp [h0, encode_header_zero, length_field]
    decide
  by_cases h1 : data.length ≤ 125
  · simp [h1, encode_header_small opcode _ h0 h1, length_field, small_length_field _ h1]
  by_cases h2 : data.length ≤ 65535
  · have h3 : 125 < data.length := by omega
    simp [h1, h2, encode_header_medium opcode _ h3 h2, length_field]
    decide
  · have h3 : 65535 < data.length := by omega
    simp [h1, h2, encode_header_large opcode _ h3, length_field]
    decide

/-- The length a frame built by `encode_frame` declares: the payload length
up to 65535, its low 32 bits beyond. -/
theorem declared_length_encode (opcode : opcode_type_t) (data : List Nat) (r0 r1 r2 r3 : Nat) :
    declared_length (encode_frame opcode data r0 r1 r2 r3) =
      if data.length ≤ 65535 then data.length else data.length % 2 ^ 32 := by
  unfold declared_length
  rw [length_field_encode, encode_frame_eq]
  by_cases h1 : data.length ≤ 125
  · have : data.length < 126 := by omega
    have h2 : data.length ≤ 65535 := by omega
    simp [h1, h2, this]
  by_cases h2 : data.length ≤ 65535
  · have h3 : 125 < data.length := by omega
    simp [h1, h2, encode_header_medium opcode _ h3 h2, big_endian_two]
    omega
  · have h3 : 65535 < data.length := by omega
    simp [h1, h2, encode_header_large opcode _ h3, big_endian_eight]
    omega

theorem mask_payload_length (masks : List Nat) (data : List Nat) :
    ∀ i, (mask_payload masks i data).length = data.length := by
  induction data with
  | nil => intro i; rfl
  | cons p ps ih => intro i; simp [mask_payload, ih]

/-- Byte `i` of the masked payload. -/
theorem mask_payload_get (masks : List Nat) (data : List Nat) :
    ∀ j i p, data[i]? = some p →
      (mask_payload masks j data)[i]? = some (p ^^^ masks.getD ((j + i) % 4) 0) := by
  induction data with
  | nil => intro j i p h; simp at h
  | cons q qs ih =>
    intro j i p h
    cases i with
    | zero =>
      simp at h
      simp [mask_payload, h]
    | succ i =>
      simp at h
      simp only [mask_payload, List.getElem?_cons_succ]
      rw [ih (j + 1) i p h]
      congr 3
      omega

theorem masks_get (r0 r1 r2 r3 i : Nat) :
    (masks r0 r1 r2 r3)[i % 4]? = some ((masks r0 r1 r2 r3).getD (i % 4) 0) := by
  have h : i % 4 < 4 := Nat.mod_lt _ (by decide)
  have h4 : (masks r0 r1 r2 r3).length = 4 := rfl
  rw [List.getD_eq_getElem?_getD, List.getElem?_eq_getElem (by omega)]
  rfl

theorem encode_header_length (opcode : opcode_type_t) (L : Nat) :
    (encode_header opcode L).length =
      if L ≤ 125 then 2 else if L ≤ 65535 then 4 else 10 := by
  by_cases h0 : L = 0
  · simp [h0, encode_header_zero]
  by_cases h1 : L ≤ 125
  · simp [h1, encode_header_small opcode _ h0 h1]
  by_cases h2 : L ≤ 65535
  · have h3 : 125 < L := by omega
    simp [h1, h2, encode_header_medium opcode _ h3 h2]
  · have h3 : 65535 < L := by omega
    simp [h1, h2, encode_header_large opcode _ h3]

theorem encode_header_first (opcode : opcode_type_t) (L : Nat) :
    (encode_header opcode L)[0]? = some (0x80 ||| opcode.val) := by
  by_cases h0 : L = 0
  · simp [h0, encode_header_zero]
  by_cases h1 : L ≤ 125
  · simp [encode_header_small opcode _ h0 h1]
  by_cases h2 : L ≤ 65535
  · have h3 : 125 < L := by omega
    simp [encode_header_medium opcode _ h3 h2]
  · have h3 : 65535 < L := by omega
    simp [encode_header_large opcode _ h3]

theorem small_mask_bit : ∀ L, L ≤ 125 → (L + 128) &&& 0x80 = 0x80 := by
  decide

theorem encode_header_second (opcode : opcode_type_t) (L : Nat) :
    ∃ b1, (encode_header opcode L)[1]? = some b1 ∧ b1 &&& 0x80 = 0x80 := by
  by_cases h0 : L = 0
  · exact ⟨0x80, by simp [h0, encode_header_zero], by decide⟩
  by_cases h1 : L ≤ 125
  · exact ⟨L + 128, by simp [encode_header_small opcode _ h0 h1], small_mask_bit L h1⟩
  by_cases h2 : L ≤ 65535
  · have h3 : 125 < L := by omega
    exact ⟨254, by simp [encode_header_medium opcode _ h3 h2], by decide⟩
  · have h3 : 65535 < L := by omega
    exact ⟨255, by simp [encode_header_large opcode _ h3], by decide⟩

/-! ## The transport and the read-exactly-N routine -/

/-- The fuel given to the loop is enough: with `receive_size ≤ total + fuel`
one more turn of fuel changes nothing, so the exhausted-fuel branch of
`receive_loop` is never the one that answers. -/
theorem receive_loop_fuel (receive_size : Int) :
    ∀ (fuel : Nat) (total : Int) (buffer : List Nat) (c : Conn),
      receive_size ≤ total + fuel →
      receive_loop receive_size (fuel + 1) total buffer c =
        receive_loop receive_size fuel total buffer c := by
  intro fuel
  induction fuel with
  | zero =>
    intro total buffer c h
    have : ¬ (total < receive_size) := by simp at h; omega
    simp [receive_loop, this]
  | succ fuel ih =>
    intro total buffer c h
    rw [receive_loop]
    conv_rhs => rw [receive_loop]
    by_cases hc : total < receive_size
    · simp only [hc, if_true]
      by_cases h0 : (recv c receive_size.toNat).1 ≤ 0
      · simp only [h0, if_true]
      · simp only [h0, if_false]
        by_cases h1 : 2 ^ 31 ≤ total + (recv c receive_size.toNat).1
        · simp only [h1, if_true]
        · simp only [h1, if_false]
          by_cases h2 : (usable_size receive_size.toNat : Int) ≤
              total + (recv c receive_size.toNat).1
          · simp only [h2, if_true]
          · simp only [h2, if_false]
            apply ih
            push_cast at h
            omega
    · simp only [hc, if_false]

/-- The block of a buffer has 24 bytes at least. -/
theorem usable_size_ge (n : Nat) : 24 ≤ usable_size n :=
  Nat.le_max_left _ _

/-- A `recv` that does not fail hands over between 1 and `len` pending bytes. -/
theorem recv_no_error (c : Conn) (len : Nat) (h1 : 1 ≤ len) (h2 : len ≤ 2 ^ 30)
    (hs : 1 ≤ c.stream.length) (hp : no_error c.plan) :
    ∃ k plan', 1 ≤ k ∧ k ≤ len ∧ k ≤ c.stream.length ∧ no_error plan' ∧
      recv c len = ((k : Int), c.stream.take k,
        { stream := c.stream.drop k, plan := plan', calls := c.calls }) := by
  have hm : len ≤ MAX_RW_COUNT := by
    have : (2 : Nat) ^ 30 ≤ MAX_RW_COUNT := by decide
    omega
  have e : min len MAX_RW_COUNT = len := Nat.min_eq_left hm
  rcases c with ⟨stream, plan, calls⟩
  change 1 ≤ stream.length at hs
  cases plan with
  | nil =>
    refine ⟨min len stream.length, [], ?_, ?_, ?_, ?_, ?_⟩
    · omega
    · omega
    · exact Nat.min_le_right _ _
    · simp [no_error]
    · simp [recv, e]
  | cons s rest =>
    cases s with
    | error => exact absurd rfl (hp _ (List.mem_cons_self _ _))
    | chunk k =>
      refine ⟨min (max k 1) (min len stream.length), rest, ?_, ?_, ?_, ?_, ?_⟩
      · omega
      · omega
      · exact Nat.le_trans (Nat.min_le_right _ _) (Nat.min_le_right _ _)
      · intro s hs'
        exact hp s (List.mem_cons_of_mem _ hs')
      · simp [recv, e]

/-- On a transport without failures and with enough pending bytes the loop
for a size of at most 12 ends normally, having appended the next `t` bytes
of the stream to the buffer, where `total + t` reaches `n` (and may exceed
it, staying below `2 * n` and so inside the block). -/
theorem receive_loop_reads (n : Nat) (hn : n ≤ 12) :
    ∀ (fuel total : Nat) (buffer : List Nat) (c : Conn),
      n ≤ total + fuel → n ≤ total + c.stream.length → no_error c.plan →
      ∃ t plan', n ≤ total + t ∧ t ≤ c.stream.length ∧ (total < n → 1 ≤ t) ∧
        no_error plan' ∧
        receive_loop (n : Int) fuel (total : Int) buffer c =
          ({ stream := c.stream.drop t, plan := plan', calls := c.calls },
            .ok (buffer ++ c.stream.take t)) := by
  intro fuel
  induction fuel with
  | zero =>
    intro total buffer c hf _ hp
    refine ⟨0, c.plan, by omega, by omega, by omega, hp, ?_⟩
    have : ¬ ((total : Int) < (n : Int)) := by omega
    simp [receive_loop, this]
  | succ fuel ih =>
    intro total buffer c hf hs hp
    by_cases hlt : total < n
    · obtain ⟨k, plan1, hk1, hk2, hk3, hp1, hr⟩ :=
        recv_no_error c n (by omega) (by omega) (by omega) hp
      obtain ⟨t, plan2, ht1, ht2, _, hp2, hl⟩ :=
        ih (total + k) (buffer ++ c.stream.take k)
          { stream := c.stream.drop k, plan := plan1, calls := c.calls }
          (by omega) (by simp only [List.length_drop]; omega) hp1
      refine ⟨k + t, plan2, by omega, ?_, by omega, hp2, ?_⟩
      · simp only [List.length_drop] at ht2; omega
      · have c1 : (total : Int) < (n : Int) := by omega
        have c2 : ¬ ((k : Int) ≤ 0) := by omega
        have c3 : ¬ ((2 : Int) ^ 31 ≤ (total : Int) + (k : Int)) := by
          have : (2 : Int) ^ 31 = 2147483648 := by norm_num
          omega
        have c4 : ¬ ((usable_size n : Int) ≤ (total : Int) + (k : Int)) := by
          have := usable_size_ge n
          omega
        simp only [receive_loop, c1, if_true, Int.toNat_ofNat, hr, c2, if_false, c3, c4]
        have e : (total : Int) + (k : Int) = ((total + k : Nat) : Int) := by push_cast; rfl
        rw [e, hl]
        simp only [List.drop_drop, List.append_assoc, Prod.mk.injEq, Except.ok.injEq,
          List.append_cancel_left_eq, true_and]
        exact (List.take_add _ _ _).symm
    · refine ⟨0, c.plan, by omega, by omega, by omega, hp, ?_⟩
      have : ¬ ((total : Int) < (n : Int)) := by omega
      simp [receive_loop, this]

/-- On a transport without failures and with at least `n` pending bytes,
`receive_partial_frame(n)` for `n ≤ 12` returns the NUL-terminated string
found in the `t ≥ n` bytes it consumed. -/
theorem receive_partial_frame_reads (n : Nat) (h1 : 1 ≤ n) (hn : n ≤ 12) (c : Conn)
    (hs : n ≤ c.stream.length) (hp : no_error c.plan) :
    ∃ t plan', n ≤ t ∧ t ≤ c.stream.length ∧ no_error plan' ∧
      receive_partial_frame (n : Int) c =
        ({ stream := c.stream.drop t, plan := plan', calls := c.calls },
          .ok (c_string (c.stream.take t ++ [0]))) := by
  obtain ⟨t, plan1, ht1, ht2, ht3, hp1, hl⟩ :=
    receive_loop_reads n hn n 0 [] c (by omega) (by omega) hp
  refine ⟨t, plan1, by omega, ht2, hp1, ?_⟩
  have hneg : ¬ ((n : Int) < 0) := by omega
  have hl2 : receive_loop (n : Int) n 0 [] c =
      ({ stream := c.stream.drop t, plan := plan1, calls := c.calls },
        .ok (c.stream.take t)) := by
    simpa using hl
  have hmax : ¬ ((ALLOC_MAX : Int) < (n : Int)) := by
    have : (12 : Nat) ≤ ALLOC_MAX := by decide
    omega
  have ht : 1 ≤ t := ht3 (by omega)
  cases hb : c.stream.take t with
  | nil =>
    have := congrArg List.length hb
    simp only [List.length_take, List.length_nil] at this
    omega
  | cons b bs =>
    rw [hb] at hl2
    simp [receive_partial_frame, hneg, hmax, hl2]

/-- Indexing the string built from a buffer gives the byte of the buffer as
long as no earlier byte is zero. -/
theorem c_string_at (mem : List Nat) :
    ∀ i b, mem[i]? = some b → (∀ j a, j < i → mem[j]? = some a → a ≠ 0) →
      byte_string_at (c_string (mem ++ [0])) i = some b := by
  induction mem with
  | nil => intro i b h; simp at h
  | cons m ms ih =>
    intro i b h hz
    cases i with
    | zero =>
      simp at h
      subst h
      by_cases h0 : m = 0
      · simp [c_string, byte_string_at, h0]
      · simp [c_string, byte_string_at, h0, List.takeWhile_cons]
    | succ i =>
      have hm : m ≠ 0 := hz 0 m (by omega) (by simp)
      simp at h
      have := ih i b h (fun j a hj ha => hz (j + 1) a (by omega) (by simpa using ha))
      simpa [c_string, byte_string_at, hm, List.takeWhile_cons] using this

/-- The FIN bit of a byte. -/
theorem fin_bit (b : Nat) (hb : b < 256) :
    (b >>> 7) &&& 0x01 = if b < 128 then 0 else 1 := by
  rw [Nat.and_one_is_mod, Nat.shiftRight_eq_div_pow]
  split_ifs <;> omega

/-- The low four bits of a byte. -/
theorem opcode_bits (b : Nat) : b &&& 0x0F = b % 16 :=
  Nat.and_pow_two_sub_one_eq_mod b 4

/-- The read of the base header: byte 0 is always recovered, byte 1 whenever
byte 0 is not zero. -/
theorem receive_header (b0 b1 : Nat) (rest : List Nat) (plan : List RecvStep)
    (calls : List (Nat × List Nat)) (hp : no_error plan) :
    ∃ c1 header, receive_partial_frame 2 ⟨b0 :: b1 :: rest, plan, calls⟩ = (c1, .ok header) ∧
      c1.calls = calls ∧ no_error c1.plan ∧
      (∃ t, 2 ≤ t ∧ c1.stream = (b0 :: b1 :: rest).drop t) ∧
      byte_string_at header 0 = some b0 ∧
      (b0 ≠ 0 → byte_string_at header 1 = some b1) := by
  obtain ⟨t, plan1, ht1, ht2, hp1, hr⟩ :=
    receive_partial_frame_reads 2 (by omega) (by norm_num)
      ⟨b0 :: b1 :: rest, plan, calls⟩ (by simp) hp
  refine ⟨_, _, hr, rfl, hp1, ⟨t, ht1, rfl⟩, ?_, ?_⟩
  · apply c_string_at
    · obtain ⟨t', rfl⟩ : ∃ t', t = t' + 1 := ⟨t - 1, by omega⟩
      simp
    · intro j a hj
      omega
  · intro h0
    apply c_string_at
    · obtain ⟨t', rfl⟩ : ∃ t', t = t' + 2 := ⟨t - 2, by omega⟩
      simp
    · intro j a hj ha
      obtain rfl : j = 0 := by omega
      obtain ⟨t', rfl⟩ : ∃ t', t = t' + 1 := ⟨t - 1, by omega⟩
      simp at ha
      omega

/-- Or-ing a shifted byte into a value whose bits below are clear adds it. -/
theorem or_shift (q b j : Nat) (hb : b < 256) :
    (2 ^ (j + 8) * q) ||| (b <<< j) = 2 ^ (j + 8) * q + b * 2 ^ j := by
  have hp : 0 < 2 ^ j := Nat.two_pow_pos j
  have h : b * 2 ^ j < 2 ^ (j + 8) := by
    have e : 2 ^ (j + 8) = 256 * 2 ^ j := by rw [Nat.pow_add]; ring
    rw [e]
    exact Nat.mul_lt_mul_of_pos_right hb hp
  rw [Nat.shiftLeft_eq, Nat.mul_add_lt_is_or h]

/-- The 16-bit length expression of `receive_data_frame`. -/
theorem be16_bits (h0 h1 : Nat) (hb : h1 < 256) : (h0 <<< 8) ||| h1 = 256 * h0 + h1 := by
  have := or_shift h0 h1 0 hb
  simp only [Nat.zero_add, Nat.shiftLeft_zero, Nat.pow_zero, Nat.mul_one] at this
  rw [Nat.shiftLeft_eq, Nat.mul_comm]
  exact this

/-- The 64-bit length expression of `receive_data_frame`. -/
theorem be64_bits (h0 h1 h2 h3 h4 h5 h6 h7 : Nat) (b1 : h1 < 256) (b2 : h2 < 256)
    (b3 : h3 < 256) (b4 : h4 < 256) (b5 : h5 < 256) (b6 : h6 < 256) (b7 : h7 < 256) :
    (h0 <<< 56) ||| (h1 <<< 48) ||| (h2 <<< 40) ||| (h3 <<< 32) ||| (h4 <<< 24) |||
      (h5 <<< 16) ||| (h6 <<< 8) ||| h7 = big_endian [h0, h1, h2, h3, h4, h5, h6, h7] := by
  rw [big_endian_eight]
  have s1 : (h0 <<< 56) ||| (h1 <<< 48) = 2 ^ (40 + 8) * (h0 * 256 + h1) := by
    rw [show h0 <<< 56 = 2 ^ (48 + 8) * h0 by rw [Nat.shiftLeft_eq, Nat.mul_comm],
      or_shift _ _ _ b1]
    ring
  have s2 : 2 ^ (40 + 8) * (h0 * 256 + h1) ||| (h2 <<< 40) =
      2 ^ (32 + 8) * ((h0 * 256 + h1) * 256 + h2) := by
    rw [or_shift _ _ _ b2]; ring
  have s3 : 2 ^ (32 + 8) * ((h0 * 256 + h1) * 256 + h2) ||| (h3 <<< 32) =
      2 ^ (24 + 8) * (((h0 * 256 + h1) * 256 + h2) * 256 + h3) := by
    rw [or_shift _ _ _ b3]; ring
  have s4 : 2 ^ (24 + 8) * (((h0 * 256 + h1) * 256 + h2) * 256 + h3) ||| (h4 <<< 24) =
      2 ^ (16 + 8) * ((((h0 * 256 + h1) * 256 + h2) * 256 + h3) * 256 + h4) := by
    rw [or_shift _ _ _ b4]; ring
  have s5 : 2 ^ (16 + 8) * ((((h0 * 256 + h1) * 256 + h2) * 256 + h3) * 256 + h4) |||
      (h5 <<< 16) =
      2 ^ (8 + 8) * (((((h0 * 256 + h1) * 256 + h2) * 256 + h3) * 256 + h4) * 256 + h5) := by
    rw [or_shift _ _ _ b5]; ring
  have s6 : 2 ^ (8 + 8) * (((((h0 * 256 + h1) * 256 + h2) * 256 + h3) * 256 + h4) * 256 + h5)
      ||| (h6 <<< 8) =
      2 ^ (0 + 8) * ((((((h0 * 256 + h1) * 256 + h2) * 256 + h3) * 256 + h4) * 256 + h5)
        * 256 + h6) := by
    rw [or_shift _ _ _ b6]; ring
  have s7 : 2 ^ (0 + 8) * ((((((h0 * 256 + h1) * 256 + h2) * 256 + h3) * 256 + h4) * 256 + h5)
        * 256 + h6) ||| h7 =
      ((((((h0 * 256 + h1) * 256 + h2) * 256 + h3) * 256 + h4) * 256 + h5) * 256 + h6) * 256
        + h7 := by
    have := or_shift ((((((h0 * 256 + h1) * 256 + h2) * 256 + h3) * 256 + h4) * 256 + h5)
        * 256 + h6) h7 0 b7
    simp only [Nat.shiftLeft_zero, Nat.pow_zero, Nat.mul_one] at this
    rw [this]; ring
  rw [s1, s2, s3, s4, s5, s6, s7]

/-- Eight bytes make a value below `2^64`, below `2^63` iff the first byte is
below 0x80. -/
theorem be64_lt (h0 h1 h2 h3 h4 h5 h6 h7 : Nat) (b0 : h0 < 256) (b1 : h1 < 256)
    (b2 : h2 < 256) (b3 : h3 < 256) (b4 : h4 < 256) (b5 : h5 < 256) (b6 : h6 < 256)
    (b7 : h7 < 256) :
    big_endian [h0, h1, h2, h3, h4, h5, h6, h7] < 2 ^ 64 ∧
      (big_endian [h0, h1, h2, h3, h4, h5, h6, h7] < 2 ^ 63 ↔ h0 < 128) := by
  rw [big_endian_eight]
  constructor <;> omega

/-- Byte `i` of a field `b` at the head of the stream is recovered from the
string built of the `t ≥ |b|` bytes read when no earlier byte of `b` is zero. -/
theorem read_at (b rest : List Nat) (t i x : Nat) (ht : b.length ≤ t) (hi : b[i]? = some x)
    (hz : ∀ j a, j < i → b[j]? = some a → a ≠ 0) :
    byte_string_at (c_string ((b ++ rest).take t ++ [0])) i = some x := by
  have hlt : i < b.length := (List.getElem?_eq_some.mp hi).1
  have e : ∀ j, j ≤ i → ((b ++ rest).take t)[j]? = b[j]? := by
    intro j hj
    rw [List.getElem?_take_of_lt (by omega), List.getElem?_append_left (by omega)]
  apply c_string_at
  · rw [e i (Nat.le_refl _), hi]
  · intro j a hj ha
    rw [e j (by omega)] at ha
    exact hz j a hj ha

/-- A `recv` answered with one byte. -/
theorem recv_one (stream : List Nat) (m len : Nat) (calls : List (Nat × List Nat))
    (h1 : 1 ≤ len) (hs : 1 ≤ stream.length) :
    recv ⟨stream, List.replicate (m + 1) (RecvStep.chunk 1), calls⟩ len =
      ((1 : Int), stream.take 1, ⟨stream.drop 1, List.replicate m (RecvStep.chunk 1), calls⟩) := by
  have hm : 1 ≤ MAX_RW_COUNT := by decide
  have e : min (max 1 1) (min (min len MAX_RW_COUNT) stream.length) = 1 := by omega
  simp only [recv, List.replicate_succ, e]
  rfl

/-- The loop on a transport that hands over one byte per `recv`, for a size
whose terminator stays inside the block. -/
theorem receive_loop_one_by_one (n : Nat) (hn : n < 2 ^ 31) (hu : n < usable_size n)
    (calls : List (Nat × List Nat)) :
    ∀ (fuel total : Nat) (buffer stream : List Nat) (m : Nat),
      n ≤ total + fuel → total ≤ n → n - total ≤ stream.length → n - total ≤ m →
      receive_loop (n : Int) fuel (total : Int) buffer
          ⟨stream, List.replicate m (RecvStep.chunk 1), calls⟩ =
        (⟨stream.drop (n - total), List.replicate (m - (n - total)) (RecvStep.chunk 1), calls⟩,
          .ok (buffer ++ stream.take (n - total))) := by
  intro fuel
  induction fuel with
  | zero =>
    intro total buffer stream m hf ht _ _
    have e : n - total = 0 := by omega
    have : ¬ ((total : Int) < (n : Int)) := by omega
    simp [receive_loop, this, e]
  | succ fuel ih =>
    intro total buffer stream m hf ht hs hm
    by_cases hlt : total < n
    · obtain ⟨m', rfl⟩ : ∃ m', m = m' + 1 := ⟨m - 1, by omega⟩
      have c1 : (total : Int) < (n : Int) := by omega
      have c2 : ¬ ((1 : Int) ≤ 0) := by decide
      have c3 : ¬ ((2 : Int) ^ 31 ≤ (total : Int) + 1) := by
        have : (2 : Int) ^ 31 = 2147483648 := by norm_num
        have : (2 : Nat) ^ 31 = 2147483648 := by norm_num
        omega
      have c4 : ¬ ((usable_size n : Int) ≤ (total : Int) + 1) := by omega
      have hr := recv_one stream m' n calls (by omega) (by omega)
      have e : (total : Int) + 1 = ((total + 1 : Nat) : Int) := by push_cast; rfl
      simp only [receive_loop, c1, if_true, Int.toNat_ofNat, hr, c2, if_false, c3, c4]
      rw [e, ih (total + 1) _ (stream.drop 1) m' (by omega) (by omega)
        (by simp only [List.length_drop]; omega) (by omega)]
      have e2 : n - total = 1 + (n - (total + 1)) := by omega
      have e3 : m' + 1 - (n - total) = m' - (n - (total + 1)) := by omega
      rw [e2, List.take_add, ← e2, e3]
      simp only [List.drop_drop, List.append_assoc, Prod.mk.injEq, Except.ok.injEq, and_true]
      rw [show 1 + (n - (total + 1)) = n - total by omega]
    · have e : n - total = 0 := by omega
      have : ¬ ((total : Int) < (n : Int)) := by omega
      simp [receive_loop, this, e]

/-- On a transport that hands over one byte per `recv`, `receive_partial_frame`
consumes exactly `n` bytes, for a size whose terminator stays inside the
block. -/
theorem receive_partial_frame_one_by_one (n : Nat) (h1 : 1 ≤ n) (hn : n < 2 ^ 31)
    (hu : n < usable_size n) (stream : List Nat) (m : Nat) (calls : List (Nat × List Nat))
    (hs : n ≤ stream.length) (hm : n ≤ m) :
    receive_partial_frame (n : Int) ⟨stream, List.replicate m (RecvStep.chunk 1), calls⟩ =
      (⟨stream.drop n, List.replicate (m - n) (RecvStep.chunk 1), calls⟩,
        .ok (c_string (stream.take n ++ [0]))) := by
  have hl := receive_loop_one_by_one n hn hu calls n 0 [] stream m (by omega) (by omega)
    (by omega) (by omega)
  have hneg : ¬ ((n : Int) < 0) := by omega
  have hmax : ¬ ((ALLOC_MAX : Int) < (n : Int)) := by
    have : (2 : Nat) ^ 31 ≤ ALLOC_MAX := by decide
    omega
  have hl2 : receive_loop (n : Int) n 0 [] ⟨stream, List.replicate m (RecvStep.chunk 1), calls⟩ =
      (⟨stream.drop n, List.replicate (m - n) (RecvStep.chunk 1), calls⟩,
        .ok (stream.take n)) := by
    simpa using hl
  cases hb : stream.take n with
  | nil =>
    have := congrArg List.length hb
    simp only [List.length_take, List.length_nil] at this
    omega
  | cons b bs =>
    rw [hb] at hl2
    simp [receive_partial_frame, hneg, hmax, hl2]

/-! ## The claims -/

/-- C1 (round trip), evaluated where it fails: `encode_frame(TEXT, "A")` with a
mask key whose first byte is 0x41 puts the masked byte 0x00 on the wire;
`receive_frame` fed exactly these bytes invokes the callback once, with
`(TEXT, "")` and not `(TEXT, "A")`. -/
theorem round_trip_loses_zero_byte :
    encode_frame .TEXT [0x41] 0x40 0 0 0 = [0x81, 0x81, 0x41, 0x01, 0x01, 0x01, 0x00] ∧
    receive_frame (inbound (encode_frame .TEXT [0x41] 0x40 0 0 0)) =
      ({ stream := [], plan := [], calls := [(0x01, [])] }, .ok ()) := by
  decide

/-- C2 (data-frame decoding), evaluated where it fails: the unmasked TEXT
frame of length 1 whose payload byte is 0x00 is delivered with an empty
payload, not with a payload of length 1. -/
theorem data_frame_drops_zero_byte :
    receive_frame (inbound [0x81, 0x01, 0x00]) =
      ({ stream := [], plan := [], calls := [(0x01, [])] }, .ok ()) := by
  decide

/-- C3 as amended: for every opcode and every payload of length `L < 2^32`,
the length declared by the output of `encode_frame` equals `L`. -/
theorem declared_length_eq_length (opcode : opcode_type_t) (data : List Nat) (r0 r1 r2 r3 : Nat)
    (h : data.length < 2 ^ 32) :
    declared_length (encode_frame opcode data r0 r1 r2 r3) = data.length := by
  rw [declared_length_encode]
  split_ifs
  · rfl
  · exact Nat.mod_eq_of_lt h

/-- C3 amended, at a TEXT frame with a 2-byte payload. -/
theorem declared_length_eq_length_witness :
    [0x41, 0x42].length < 2 ^ 32 ∧
      declared_length (encode_frame .TEXT [0x41, 0x42] 7 8 9 10) = [0x41, 0x42].length :=
  ⟨by decide, declared_length_eq_length .TEXT [0x41, 0x42] 7 8 9 10 (by decide)⟩

/-- C3 as stated fails at a payload of `2^32` bytes: the 8-byte extension
carries four zero bytes and the low 32 bits of the length, so the frame
declares 0. -/
theorem declared_length_wraps :
    declared_length (encode_frame .BINARY (List.replicate (2 ^ 32) 0) 0 0 0 0) ≠
      (List.replicate (2 ^ 32) 0).length := by
  rw [declared_length_encode, List.length_replicate]
  norm_num

/-- C4 (fragmentation rejection): for every base header whose FIN bit is 0
(`b0 < 128`) or whose opcode is CONTINUATION (`b0 % 16 = 0`), whatever bytes
follow and however the transport chunks them, `receive_frame` fails with the
fragmentation error and the callback is not invoked. -/
theorem fragmentation_rejected (b0 b1 : Nat) (rest : List Nat) (plan : List RecvStep)
    (calls : List (Nat × List Nat)) (hb : b0 < 256) (hfrag : b0 < 128 ∨ b0 % 16 = 0)
    (hp : no_error plan) :
    ∃ c1, receive_frame ⟨b0 :: b1 :: rest, plan, calls⟩ = (c1, .error .fragmented) ∧
      c1.calls = calls := by
  obtain ⟨c1, header, hr, hc, _, _, h0, _⟩ := receive_header b0 b1 rest plan calls hp
  refine ⟨c1, ?_, hc⟩
  have hcond : (b0 >>> 7) &&& 0x01 = 0 ∨ b0 &&& 0x0F = opcode_type_t.CONTINUATION.val := by
    rcases hfrag with h | h
    · left
      rw [fin_bit b0 hb, if_pos h]
    · right
      rw [opcode_bits, h]
      rfl
  simp only [receive_frame, hr, h0, Option.getD_some, hcond, if_true]

/-- C4 at the header `01 01` (FIN = 0, TEXT) read one byte at a time. -/
theorem fragmentation_rejected_witness :
    ∃ c1, receive_frame ⟨[0x01, 0x01, 0x41], [.chunk 1, .chunk 1], []⟩ =
        (c1, .error .fragmented) ∧ c1.calls = [] :=
  fragmentation_rejected 0x01 0x01 [0x41] [.chunk 1, .chunk 1] [] (by decide)
    (Or.inl (by decide)) (by decide)

/-- C5 (control-frame payload narrowing): for every frame with FIN = 1 and
opcode CLOSE, PING or PONG, whatever its second header byte and the bytes
that follow, `receive_frame` returns normally and invokes the callback
exactly once more, with that opcode and an empty payload. -/
theorem control_frame_empty_payload (b0 b1 : Nat) (rest : List Nat) (plan : List RecvStep)
    (calls : List (Nat × List Nat)) (hb : b0 < 256) (hfin : 128 ≤ b0)
    (hop : b0 % 16 = opcode_type_t.CLOSE.val ∨ b0 % 16 = opcode_type_t.PING.val ∨
      b0 % 16 = opcode_type_t.PONG.val)
    (hp : no_error plan) :
    ∃ c1, receive_frame ⟨b0 :: b1 :: rest, plan, calls⟩ = (c1, .ok ()) ∧
      c1.calls = calls ++ [(b0 % 16, [])] := by
  obtain ⟨c1, header, hr, hc, _, _, h0, _⟩ := receive_header b0 b1 rest plan calls hp
  refine ⟨{ c1 with calls := c1.calls ++ [(b0 % 16, [])] }, ?_, by simp [hc]⟩
  have hfin1 : (b0 >>> 7) &&& 0x01 = 1 := by
    rw [fin_bit b0 hb, if_neg (by omega)]
  have hv : opcode_type_t.CLOSE.val = 8 ∧ opcode_type_t.PING.val = 9 ∧
      opcode_type_t.PONG.val = 10 ∧ opcode_type_t.CONTINUATION.val = 0 ∧
      opcode_type_t.TEXT.val = 1 ∧ opcode_type_t.BINARY.val = 2 := by decide
  obtain ⟨v1, v2, v3, v4, v5, v6⟩ := hv
  rw [v1, v2, v3] at hop
  have n1 : ¬ ((b0 >>> 7) &&& 0x01 = 0 ∨ b0 % 16 = 0) := by
    rw [hfin1]; omega
  have n2 : ¬ (b0 % 16 = 2 ∨ b0 % 16 = 1) := by omega
  simp only [receive_frame, hr, h0, Option.getD_some, opcode_bits, v1, v2, v3, v4, v5, v6,
    n1, n2, hop, if_true, if_false]

/-- C5 at a Close frame that carries the 2-byte status code 1000. -/
theorem control_frame_empty_payload_witness :
    ∃ c1, receive_frame ⟨[0x88, 0x02, 0x03, 0xE8], [.chunk 1, .chunk 1], []⟩ = (c1, .ok ()) ∧
      c1.calls = [] ++ [(0x88 % 16, [])] :=
  control_frame_empty_payload 0x88 0x02 [0x03, 0xE8] [.chunk 1, .chunk 1] [] (by decide)
    (by decide) (Or.inl (by decide)) (by decide)

/-- C6 (length-field selection): the low 7 bits of byte 1 of the output of
`encode_frame` are 126 iff `126 ≤ L ≤ 65535`, 127 iff `L > 65535`, and `L`
itself when `L ≤ 125`. -/
theorem length_field_selection (opcode : opcode_type_t) (data : List Nat) (r0 r1 r2 r3 : Nat) :
    (length_field (encode_frame opcode data r0 r1 r2 r3) = 126 ↔
        126 ≤ data.length ∧ data.length ≤ 65535) ∧
      (length_field (encode_frame opcode data r0 r1 r2 r3) = 127 ↔ 65535 < data.length) ∧
      (data.length ≤ 125 → length_field (encode_frame opcode data r0 r1 r2 r3) = data.length) := by
  rw [length_field_encode]
  refine ⟨?_, ?_, ?_⟩
  · split_ifs <;> omega
  · split_ifs <;> omega
  · intro h
    simp [h]

/-- C6 at a TEXT frame with a 1-byte payload: the length field is 1. -/
theorem length_field_selection_witness :
    [0x41].length ≤ 125 ∧
      length_field (encode_frame .TEXT [0x41] 1 2 3 4) = [0x41].length :=
  ⟨by decide, (length_field_selection .TEXT [0x41] 1 2 3 4).2.2 (by decide)⟩

/-- C7 (outbound frame layout): the output of `encode_frame` is
`header ++ K ++ M` with byte 0 of the header `0x80 | opcode`, the mask bit set
in byte 1, a header of 2, 4 or 10 bytes according to `L`, `K` the four mask
bytes and `M` of length `L` with `M[i] = P[i] XOR K[i mod 4]`; an empty
payload gives the 6 bytes `[0x80 | opcode, 0x80] ++ K`. -/
theorem encode_frame_layout (opcode : opcode_type_t) (data : List Nat) (r0 r1 r2 r3 : Nat) :
    (∃ header M : List Nat,
      encode_frame opcode data r0 r1 r2 r3 = header ++ masks r0 r1 r2 r3 ++ M ∧
      header[0]? = some (0x80 ||| opcode.val) ∧
      (∃ b1, header[1]? = some b1 ∧ b1 &&& 0x80 = 0x80) ∧
      header.length =
        (if data.length ≤ 125 then 2 else if data.length ≤ 65535 then 4 else 10) ∧
      M.length = data.length ∧
      ∀ i p, data[i]? = some p →
        ∃ k, (masks r0 r1 r2 r3)[i % 4]? = some k ∧ M[i]? = some (p ^^^ k)) ∧
    (data = [] → encode_frame opcode data r0 r1 r2 r3 =
      [0x80 ||| opcode.val, 0x80] ++ masks r0 r1 r2 r3) := by
  constructor
  · refine ⟨encode_header opcode data.length, mask_payload (masks r0 r1 r2 r3) 0 data,
      encode_frame_eq opcode data r0 r1 r2 r3, encode_header_first opcode _,
      encode_header_second opcode _, encode_header_length opcode _,
      mask_payload_length _ _ _, ?_⟩
    intro i p h
    refine ⟨_, masks_get r0 r1 r2 r3 i, ?_⟩
    rw [mask_payload_get _ _ 0 i p h, Nat.zero_add]
  · intro h
    subst h
    simp [encode_frame, encode_header_zero]

/-- C7 at a PING frame with an empty payload: six bytes. -/
theorem encode_frame_layout_witness :
    encode_frame .PING [] 1 2 3 4 = [0x80 ||| opcode_type_t.PING.val, 0x80] ++ masks 1 2 3 4 :=
  (encode_frame_layout .PING [] 1 2 3 4).2 rfl

/-- The extended lengths the decoder does resolve: when the extension bytes
before the last one are non-zero, a length field of 126 resolves to the
big-endian value of the 2 extension bytes, and a length field of 127 to the
big-endian value of the 8 extension bytes read as a signed 64-bit number
(the value itself when `b0 < 0x80`, the value minus `2^64` when
`b0 ≥ 0x80`), however the transport chunks the bytes. -/
theorem extended_length_resolution (b : List Nat) (rest : List Nat) (plan : List RecvStep)
    (calls : List (Nat × List Nat)) (hb : ∀ x ∈ b, x < 256) (hz : ∀ x ∈ b.dropLast, x ≠ 0)
    (hp : no_error plan) :
    (b.length = 2 →
      (resolve_payload_length 126 ⟨b ++ rest, plan, calls⟩).2 = .ok (big_endian b : Int)) ∧
    (b.length = 8 →
      (resolve_payload_length 127 ⟨b ++ rest, plan, calls⟩).2 =
        .ok (if b.headD 0 < 128 then (big_endian b : Int) else (big_endian b : Int) - 2 ^ 64)) := by
  have hz' : ∀ i j a, i < b.length → j < i → b[j]? = some a → a ≠ 0 := by
    intro i j a hi hj ha
    apply hz
    rw [List.mem_iff_getElem?]
    exact ⟨j, by rw [List.getElem?_dropLast, if_pos (by omega), ha]⟩
  constructor
  · intro hl
    obtain ⟨t, plan1, ht1, ht2, hp1, hr⟩ :=
      receive_partial_frame_reads 2 (by omega) (by norm_num)
        ⟨b ++ rest, plan, calls⟩ (by simp; omega) hp
    have rd : ∀ i x, b[i]? = some x →
        byte_string_at (c_string ((b ++ rest).take t ++ [0])) i = some x := by
      intro i x hi
      exact read_at b rest t i x (by omega) hi
        (fun j a hj ha => hz' i j a (List.getElem?_eq_some.mp hi).1 hj ha)
    match b, hl with
    | [h0, h1], _ =>
      have a0 := rd 0 h0 rfl
      have a1 := rd 1 h1 rfl
      have hr2 : receive_partial_frame 2 ⟨[h0, h1] ++ rest, plan, calls⟩ = _ := hr
      simp only [resolve_payload_length, if_true, hr2, a0, a1]
      rw [be16_bits h0 h1 (hb h1 (by simp)), big_endian_two, Nat.mul_comm]
  · intro hl
    obtain ⟨t, plan1, ht1, ht2, hp1, hr⟩ :=
      receive_partial_frame_reads 8 (by omega) (by norm_num)
        ⟨b ++ rest, plan, calls⟩ (by simp; omega) hp
    have rd : ∀ i x, b[i]? = some x →
        byte_string_at (c_string ((b ++ rest).take t ++ [0])) i = some x := by
      intro i x hi
      exact read_at b rest t i x (by omega) hi
        (fun j a hj ha => hz' i j a (List.getElem?_eq_some.mp hi).1 hj ha)
    match b, hl with
    | [h0, h1, h2, h3, h4, h5, h6, h7], _ =>
      have a0 := rd 0 h0 rfl
      have a1 := rd 1 h1 rfl
      have a2 := rd 2 h2 rfl
      have a3 := rd 3 h3 rfl
      have a4 := rd 4 h4 rfl
      have a5 := rd 5 h5 rfl
      have a6 := rd 6 h6 rfl
      have a7 := rd 7 h7 rfl
      have hr2 : receive_partial_frame 8 ⟨[h0, h1, h2, h3, h4, h5, h6, h7] ++ rest, plan, calls⟩
          = _ := hr
      have n1 : ¬ ((127 : Int) = 126) := by decide
      have bits := be64_bits h0 h1 h2 h3 h4 h5 h6 h7 (hb h1 (by simp)) (hb h2 (by simp))
        (hb h3 (by simp)) (hb h4 (by simp)) (hb h5 (by simp)) (hb h6 (by simp))
        (hb h7 (by simp))
      obtain ⟨lt64, lt63⟩ := be64_lt h0 h1 h2 h3 h4 h5 h6 h7 (hb h0 (by simp)) (hb h1 (by simp))
        (hb h2 (by simp)) (hb h3 (by simp)) (hb h4 (by simp)) (hb h5 (by simp))
        (hb h6 (by simp)) (hb h7 (by simp))
      simp only [resolve_payload_length, n1, if_false, if_true, hr2, a0, a1, a2, a3, a4, a5, a6,
        a7, Option.pure_def, Option.bind_eq_bind, Option.some_bind, bits, to_int64,
        Nat.mod_eq_of_lt lt64, lt63, List.headD_cons]

/-- The extension `FF FF FF FF FF FF FF FF` resolves to -1: `payload_length`
is an `int64_t`. -/
theorem extended_length_signed :
    (resolve_payload_length 127 (inbound [0xFF, 0xFF, 0xFF, 0xFF, 0xFF, 0xFF, 0xFF, 0xFF])).2
      = .ok (-1) := by
  decide

set_option maxRecDepth 8000 in
/-- C8 (extended length resolution), evaluated where it fails: for the length
field 126 followed by the extension `00 C8` (200), `receive_partial_frame(2)`
consumes both bytes and returns the empty string, the buffer being cut at its
first zero byte; `length_header[0]` is the terminator of that string and
`length_header[1]` lies beyond it, a byte the program never wrote, so the
length resolved does not come from the byte `C8` and has no value fixed by
the program.  The frame `encode_frame` builds for a payload of 126 bytes,
whose extension is `00 7E`, is lost the same way. -/
theorem extended_length_zero_byte :
    receive_partial_frame 2 (inbound [0x00, 0xC8]) = (⟨[], [], []⟩, .ok []) ∧
    byte_string_at [] 0 = some 0 ∧
    byte_string_at [] 1 = none ∧
    resolve_payload_length 126 (inbound [0x00, 0xC8]) =
      (⟨[], [], []⟩, .error .indeterminate) ∧
    ((encode_frame .TEXT (List.replicate 126 0x41) 0 0 0 0).take 4 = [0x81, 0xFE, 0x00, 0x7E] ∧
      (receive_frame (inbound (encode_frame .TEXT (List.replicate 126 0x41) 0 0 0 0))).2 =
        .error .indeterminate) := by
  decide

/-- C9 (read exactly N bytes), evaluated where it fails: asked for 2 bytes on
a transport that answers the first `recv` with 1 byte and the second with 2
(each call asks for 2), `receive_partial_frame` consumes 3 bytes of the
stream and returns 3 bytes. -/
theorem receive_partial_frame_overreads :
    receive_partial_frame 2
        { stream := [0x81, 0x01, 0x41, 0x88, 0x00], plan := [.chunk 1, .chunk 2], calls := [] } =
      ({ stream := [0x88, 0x00], plan := [], calls := [] }, .ok [0x81, 0x01, 0x41]) := by
  decide

/-- C10 (whole-frame consumption for control frames), evaluated where it
fails: after a Close frame with the 2-byte payload `03 E8`, `receive_frame`
returns having read the 2 header bytes only; the next call starts at the
payload byte 0x03, not at the next frame `81 01 41`, and fails. -/
theorem control_frame_leaves_payload :
    receive_frame (inbound [0x88, 0x02, 0x03, 0xE8, 0x81, 0x01, 0x41]) =
      ({ stream := [0x03, 0xE8, 0x81, 0x01, 0x41], plan := [], calls := [(0x08, [])] },
        .ok ()) ∧
    receive_frame
        { stream := [0x03, 0xE8, 0x81, 0x01, 0x41], plan := [], calls := [(0x08, [])] } =
      ({ stream := [0x81, 0x01, 0x41], plan := [], calls := [(0x08, [])] },
        .error .fragmented) := by
  decide

/-! ## The callback trace -/

/-- A call of `recv` leaves the callback trace alone. -/
theorem recv_calls (c : Conn) (len : Nat) : (recv c len).2.2.calls = c.calls := by
  rcases c with ⟨stream, plan, calls⟩
  cases plan with
  | nil => rfl
  | cons s rest => cases s <;> rfl

/-- The read loop leaves the callback trace alone. -/
theorem receive_loop_calls (receive_size : Int) :
    ∀ (fuel : Nat) (total : Int) (buffer : List Nat) (c : Conn),
      (receive_loop receive_size fuel total buffer c).1.calls = c.calls := by
  intro fuel
  induction fuel with
  | zero =>
    intro total buffer c
    simp only [receive_loop]
    split_ifs <;> rfl
  | succ fuel ih =>
    intro total buffer c
    rw [receive_loop]
    by_cases hc : total < receive_size
    · have hr := recv_calls c receive_size.toNat
      rcases hrecv : recv c receive_size.toNat with ⟨bytes_read, stored, c1⟩
      rw [hrecv] at hr
      simp only [hc, if_true]
      split_ifs
      · exact hr
      · exact hr
      · exact hr
      · exact hr
      · rw [ih]; exact hr
    · simp only [hc, if_false]

/-- The routine `receive_partial_frame` leaves the callback trace alone. -/
theorem receive_partial_frame_calls (receive_size : Int) (c : Conn) :
    (receive_partial_frame receive_size c).1.calls = c.calls := by
  unfold receive_partial_frame
  split_ifs
  · rfl
  · rfl
  · have h := receive_loop_calls receive_size receive_size.toNat 0 [] c
    split <;> simp_all

/-- The length resolution leaves the callback trace alone. -/
theorem resolve_payload_length_calls (payload_length : Int) (c : Conn) :
    (resolve_payload_length payload_length c).1.calls = c.calls := by
  unfold resolve_payload_length
  split_ifs
  · have h := receive_partial_frame_calls 2 c
    split
    · simp_all
    · split <;> simp_all
  · have h := receive_partial_frame_calls 8 c
    split
    · simp_all
    · split <;> simp_all
  · rfl

/-- The function `receive_data_frame` invokes the callback at most once, with
the opcode it was given. -/
theorem receive_data_frame_calls (opcode masked : Nat) (payload_length : Int) (c : Conn) :
    (receive_data_frame opcode masked payload_length c).1.calls = c.calls ∨
      ∃ payload, (receive_data_frame opcode masked payload_length c).1.calls =
        c.calls ++ [(opcode, payload)] := by
  have h1 := resolve_payload_length_calls payload_length c
  unfold receive_data_frame
  split
  · left; simp_all
  · rename_i c1 resolved hres
    rw [hres] at h1
    have h2 : ((if masked ≠ 0 then receive_partial_frame 4 c1
        else (c1, Except.ok [])) : Conn × Except Fault (List Nat)).1.calls = c1.calls := by
      split_ifs
      · exact receive_partial_frame_calls 4 c1
      · rfl
    split
    · left; simp_all
    · rename_i c2 mask_header hm
      rw [hm] at h2
      have h3 := receive_partial_frame_calls resolved c2
      split
      · left; simp_all
      · rename_i c3 payload hp
        rw [hp] at h3
        have e : c3.calls = c.calls := by simp_all
        split_ifs
        · split
          · rename_i unmasked _
            right; exact ⟨unmasked, by simp [e]⟩
          · left; exact e
        · right; exact ⟨payload, by simp [e]⟩

/-- The callback is invoked at most once by `receive_frame`, and only with one
of the opcodes TEXT, BINARY, CLOSE, PING, PONG. -/
theorem receive_frame_calls (c : Conn) :
    (receive_frame c).1.calls = c.calls ∨
      ∃ opcode payload, (receive_frame c).1.calls = c.calls ++ [(opcode, payload)] ∧
        (opcode = opcode_type_t.TEXT.val ∨ opcode = opcode_type_t.BINARY.val ∨
          opcode = opcode_type_t.CLOSE.val ∨ opcode = opcode_type_t.PING.val ∨
          opcode = opcode_type_t.PONG.val) := by
  have h := receive_partial_frame_calls 2 c
  unfold receive_frame
  split
  · left; simp_all
  · rename_i c1 default_header hr
    rw [hr] at h
    simp only at h
    simp only []
    split_ifs with h1 h2 h3
    · left; exact h
    · split
      · rename_i m n _ _
        rcases receive_data_frame_calls
          ((byte_string_at default_header 0).getD 0 &&& 0x0F) m n c1 with hd | ⟨payload, hd⟩
        · left; rw [hd, h]
        · right
          refine ⟨_, payload, by rw [hd, h], ?_⟩
          rcases h2 with h2 | h2
          · right; left; exact h2
          · left; exact h2
      · left; exact h
    · right
      refine ⟨(byte_string_at default_header 0).getD 0 &&& 0x0F, [], by simp [h], ?_⟩
      rcases h3 with h3 | h3 | h3
      · right; right; left; exact h3
      · right; right; right; left; exact h3
      · right; right; right; right; exact h3
    · left; exact h

/-- C11 (unsupported opcode): for every base header with FIN = 1 whose opcode
is in 0x3..0x7 or 0xB..0xF, whatever follows and however the transport
chunks it, `receive_frame` fails with the unsupported-opcode error and the
callback is not invoked; and on every connection the callback is invoked at
most once, with an opcode that is TEXT, BINARY, CLOSE, PING or PONG. -/
theorem unsupported_opcode_rejected (b0 b1 : Nat) (rest : List Nat) (plan : List RecvStep)
    (calls : List (Nat × List Nat)) (c : Conn) :
    (b0 < 256 → 128 ≤ b0 → ((3 ≤ b0 % 16 ∧ b0 % 16 ≤ 7) ∨ 11 ≤ b0 % 16) → no_error plan →
      ∃ c1, receive_frame ⟨b0 :: b1 :: rest, plan, calls⟩ = (c1, .error .unsupported_opcode) ∧
        c1.calls = calls) ∧
    ((receive_frame c).1.calls = c.calls ∨
      ∃ opcode payload, (receive_frame c).1.calls = c.calls ++ [(opcode, payload)] ∧
        (opcode = opcode_type_t.TEXT.val ∨ opcode = opcode_type_t.BINARY.val ∨
          opcode = opcode_type_t.CLOSE.val ∨ opcode = opcode_type_t.PING.val ∨
          opcode = opcode_type_t.PONG.val)) := by
  refine ⟨?_, receive_frame_calls c⟩
  intro hb hfin hop hp
  obtain ⟨c1, header, hr, hc, _, _, h0, _⟩ := receive_header b0 b1 rest plan calls hp
  refine ⟨c1, ?_, hc⟩
  have hfin1 : (b0 >>> 7) &&& 0x01 = 1 := by
    rw [fin_bit b0 hb, if_neg (by omega)]
  have hv : opcode_type_t.CLOSE.val = 8 ∧ opcode_type_t.PING.val = 9 ∧
      opcode_type_t.PONG.val = 10 ∧ opcode_type_t.CONTINUATION.val = 0 ∧
      opcode_type_t.TEXT.val = 1 ∧ opcode_type_t.BINARY.val = 2 := by decide
  obtain ⟨v1, v2, v3, v4, v5, v6⟩ := hv
  have n1 : ¬ ((b0 >>> 7) &&& 0x01 = 0 ∨ b0 % 16 = 0) := by
    rw [hfin1]; omega
  have n2 : ¬ (b0 % 16 = 2 ∨ b0 % 16 = 1) := by omega
  have n3 : ¬ (b0 % 16 = 8 ∨ b0 % 16 = 9 ∨ b0 % 16 = 10) := by omega
  simp only [receive_frame, hr, h0, Option.getD_some, opcode_bits, v1, v2, v3, v4, v5, v6,
    n1, n2, n3, if_false]

/-- C11 at the header `83 00` (FIN = 1, opcode 3) and at a Ping frame. -/
theorem unsupported_opcode_rejected_witness :
    (∃ c1, receive_frame ⟨[0x83, 0x00, 0x41], [.chunk 1, .chunk 1], []⟩ =
        (c1, .error .unsupported_opcode) ∧ c1.calls = []) ∧
    ((receive_frame (inbound [0x89, 0x00])).1.calls = (inbound [0x89, 0x00]).calls ∨
      ∃ opcode payload, (receive_frame (inbound [0x89, 0x00])).1.calls =
          (inbound [0x89, 0x00]).calls ++ [(opcode, payload)] ∧
        (opcode = opcode_type_t.TEXT.val ∨ opcode = opcode_type_t.BINARY.val ∨
          opcode = opcode_type_t.CLOSE.val ∨ opcode = opcode_type_t.PING.val ∨
          opcode = opcode_type_t.PONG.val)) :=
  ⟨(unsupported_opcode_rejected 0x83 0x00 [0x41] [.chunk 1, .chunk 1] []
      (inbound [0x89, 0x00])).1 (by decide) (by decide) (Or.inl (by decide)) (by decide),
    (unsupported_opcode_rejected 0x83 0x00 [0x41] [.chunk 1, .chunk 1] []
      (inbound [0x89, 0x00])).2⟩

/-! ## The handshake -/

/-- A `recv` that returns a positive count shortens the pending stream. -/
theorem recv_shortens (c : Conn) (len : Nat) :
    (recv c len).1 ≤ 0 ∨ (recv c len).2.2.stream.length < c.stream.length := by
  rcases c with ⟨stream, plan, calls⟩
  cases plan with
  | nil =>
    simp only [recv, List.length_drop]
    omega
  | cons s rest =>
    cases s with
    | error => left; simp [recv]
    | chunk k =>
      simp only [recv, List.length_drop]
      omega

/-- The fuel given to the response loop is enough: with more fuel than bytes
pending, one more turn of fuel changes nothing. -/
theorem response_loop_fuel :
    ∀ (fuel : Nat) (http_response : List Nat) (c : Conn), c.stream.length < fuel →
      response_loop (fuel + 1) http_response c = response_loop fuel http_response c := by
  intro fuel
  induction fuel with
  | zero => intro _ c h; omega
  | succ fuel ih =>
    intro http_response c h
    rw [response_loop]
    conv_rhs => rw [response_loop]
    by_cases hc : header_end <:+: http_response
    · simp only [hc, not_true_eq_false, if_false]
    · simp only [hc, not_false_eq_true, if_true]
      have hs := recv_shortens c 1024
      rcases hrecv : recv c 1024 with ⟨bytes_read, stored, c1⟩
      rw [hrecv] at hs
      simp only at hs ⊢
      by_cases h0 : bytes_read ≤ 0
      · simp only [h0, if_true]
      · simp only [h0, if_false]
        by_cases h1 : 1024 ≤ bytes_read
        · simp only [h1, if_true]
        · simp only [h1, if_false]
          apply ih
          rcases hs with hs | hs
          · exact absurd hs h0
          · omega

/-- A `recv` that fills the 1024 bytes of the buffer of `perform_handshake`
ends the response loop in an overrun: the terminator goes to `buffer[1024]`. -/
theorem response_loop_full_buffer (fuel : Nat) (http_response s : List Nat)
    (calls : List (Nat × List Nat)) (hnot : ¬ header_end <:+: http_response)
    (hlen : 1024 ≤ s.length) :
    response_loop (fuel + 1) http_response ⟨s, [], calls⟩ =
      (⟨s.drop 1024, [], calls⟩, .error .overrun) := by
  have hm : (1024 : Nat) ≤ MAX_RW_COUNT := by decide
  have e : min (min 1024 MAX_RW_COUNT) s.length = 1024 := by omega
  rw [response_loop]
  simp only [hnot, not_false_eq_true, if_true, recv, e]
  rfl

/-- The length of a frame built by `encode_frame`. -/
theorem encode_frame_length (opcode : opcode_type_t) (data : List Nat) (r0 r1 r2 r3 : Nat) :
    (encode_frame opcode data r0 r1 r2 r3).length =
      (if data.length ≤ 125 then 2 else if data.length ≤ 65535 then 4 else 10) + 4 +
        data.length := by
  rw [encode_frame_eq]
  simp only [List.length_append, encode_header_length, mask_payload_length]
  rfl

/-- A count that fits an `int` is kept by the conversion. -/
theorem to_int_small (n : Nat) (h : n < 2 ^ 31) : to_int (n : Int) = (n : Int) := by
  unfold to_int
  have : (2 : Nat) ^ 31 = 2147483648 := by norm_num
  omega

/-- After `close_client` the member `_fd` is 0. -/
theorem close_client_fd (cl : Client) (p : Process) : (close_client cl p).1._fd = 0 := by
  unfold close_client
  split_ifs with h
  · rfl
  · exact not_not.mp h

/-- On a client whose `_fd` is 0, `close_client` does nothing. -/
theorem close_client_closed (cl : Client) (p : Process) (h : cl._fd = 0) :
    close_client cl p = (cl, p) := by
  unfold close_client
  rw [if_neg (not_not.mpr h)]

/-- C13 as amended: after `close_client` the member `_fd` is 0, and a
subsequent `receive_frame` or `send_frame` (of a payload that fits an `int`)
fails with the transport error when its first `recv` or `send`, issued on
descriptor 0, returns -1; the callback is not invoked (the trace is empty). -/
theorem closed_client_fails (cl : Client) (p : Process) (sockets : Int → Option Conn)
    (answers : Int → List Int) (rest : List Int) (type : opcode_type_t) (data : List Nat)
    (r0 r1 r2 r3 : Nat) (hs : sockets 0 = none) (ha : answers 0 = -1 :: rest)
    (hl : data.length + 14 < 2 ^ 31) :
    (close_client cl p).1._fd = 0 ∧
      (close_client cl p).1.receive_frame sockets =
        (⟨[], [], []⟩, .error .transport_error) ∧
      (close_client cl p).1.send_frame type data r0 r1 r2 r3 answers = SendOutcome.thrown := by
  have hfd := close_client_fd cl p
  refine ⟨hfd, ?_, ?_⟩
  · unfold Client.receive_frame
    rw [hfd, hs]
    decide
  · unfold Client.send_frame websocket_client.send_frame
    have hlen := encode_frame_length type data r0 r1 r2 r3
    have hbound : (encode_frame type data r0 r1 r2 r3).length < 2 ^ 31 := by
      rw [hlen]; split_ifs <;> omega
    have hpos : 0 < (encode_frame type data r0 r1 r2 r3).length := by
      rw [hlen]; omega
    have hne : (0 : Int) ≠ ((encode_frame type data r0 r1 r2 r3).length : Int) := by omega
    have h1 : to_int ((0 : Int) + -1) = -1 := by decide
    rw [hfd, ha, to_int_small _ hbound]
    simp only [send_loop, hne, ne_eq, not_false_eq_true, if_true, h1]

/-- C13 amended, at a client closed on descriptor 5 in a process where
descriptor 0 is no socket. -/
theorem closed_client_fails_witness :
    (close_client ⟨5, "localhost", 5000, "/"⟩ ⟨[5], []⟩).1._fd = 0 ∧
      (close_client ⟨5, "localhost", 5000, "/"⟩ ⟨[5], []⟩).1.receive_frame (fun _ => none) =
        (⟨[], [], []⟩, .error .transport_error) ∧
      (close_client ⟨5, "localhost", 5000, "/"⟩ ⟨[5], []⟩).1.send_frame .TEXT [0x41] 1 2 3 4
        (fun _ => [-1]) = SendOutcome.thrown :=
  closed_client_fails ⟨5, "localhost", 5000, "/"⟩ ⟨[5], []⟩ (fun _ => none) (fun _ => [-1]) []
    .TEXT [0x41] 1 2 3 4 rfl rfl (by decide)

/-- C13 as stated fails in a process where descriptor 0 is a connected socket:
after `close_client` (which closes descriptor 5 and sets `_fd` to 0),
`receive_frame` reads the Ping frame pending on descriptor 0 and invokes the
callback, and `send_frame` returns normally once descriptor 0 has accepted
the 6 bytes of the frame. -/
theorem closed_client_uses_descriptor_zero :
    close_client ⟨5, "localhost", 5000, "/"⟩ ⟨[0, 5], []⟩ =
      (⟨0, "localhost", 5000, "/"⟩, ⟨[0], [5]⟩) ∧
    (close_client ⟨5, "localhost", 5000, "/"⟩ ⟨[0, 5], []⟩).1.receive_frame
        (fun fd => if fd = 0 then some (inbound [0x89, 0x00]) else none) =
      (⟨[], [], [(0x09, [])]⟩, .ok ()) ∧
    (close_client ⟨5, "localhost", 5000, "/"⟩ ⟨[0, 5], []⟩).1.send_frame .PING [] 1 2 3 4
        (fun fd => if fd = 0 then [6] else [-1]) = SendOutcome.returned := by
  decide

set_option maxRecDepth 8000 in
/-- C14 (failed construction releases the transport), evaluated where it
fails: when `connect` returns -1, and when the response is
`HTTP/1.1 200 OK\r\n\r\n`, the constructor throws, descriptor 3 created by
`socket` is still open and no `close` has been called. -/
theorem failed_construction_leaks :
    construct "localhost" 5000 "/" 3 (-1) [] (inbound []) ⟨[0, 1, 2], []⟩ =
      some (⟨[3, 0, 1, 2], []⟩, inbound [], .error .connect_error) ∧
    construct "localhost" 5000 "/" 3 0 [186]
        (inbound [72, 84, 84, 80, 47, 49, 46, 49, 32, 50, 48, 48, 32, 79, 75, 13, 10, 13, 10])
        ⟨[0, 1, 2], []⟩ =
      some (⟨[3, 0, 1, 2], []⟩, inbound [], .error .no_101) := by
  decide

set_option maxRecDepth 8000 in
/-- C15 (full send with error surfacing), evaluated where it fails: for the
6-byte frame of an empty TEXT payload, after the answers 3 and -1 the loop
has not thrown and calls `send` again with `bytes_sent = 2`; with a further
answer 4 it returns normally although a `send` failed.  The loop of
`perform_handshake` does the same on its 186-byte request. -/
theorem send_loop_swallows_failure :
    (encode_frame .TEXT [] 0 0 0 0).length = 6 ∧
    send_frame .TEXT [] 0 0 0 0 [3, -1] = SendOutcome.pending 2 ∧
    send_frame .TEXT [] 0 0 0 0 [3, -1, 4] = SendOutcome.returned ∧
    send_loop (to_int (strlen (handshake_request "localhost" 5000 "/"))) [100, -1] 0 =
      SendOutcome.pending 99 := by
  decide

/-- C16 (close is idempotent): a second `close_client` changes neither the
client nor the process, so it calls `close` on nothing; after the first one
`_fd` is 0 and the other members are unchanged. -/
theorem close_client_idempotent (cl : Client) (p : Process) :
    close_client (close_client cl p).1 (close_client cl p).2 = close_client cl p ∧
      (close_client (close_client cl p).1 (close_client cl p).2).2.closed =
        (close_client cl p).2.closed ∧
      (close_client cl p).1 = { cl with _fd := 0 } := by
  have hfd := close_client_fd cl p
  have h2 : close_client (close_client cl p).1 (close_client cl p).2 = close_client cl p :=
    close_client_closed _ _ hfd
  refine ⟨h2, by rw [h2], ?_⟩
  unfold close_client
  split_ifs with h
  · rfl
  · have h0 : cl._fd = 0 := not_not.mp h
    cases cl
    simp_all

/-! ## The handshake request and the masking loops -/

/-- C17 (handshake request format), evaluated where it fails: for host
`localhost`, port 5000 and endpoint `/` the request line is
`GET ws://localhost:5000/ HTTP /1.1`, with a blank inside the protocol
version; no `GET <target> HTTP/1.1\r\n` starts the request. -/
theorem handshake_request_line :
    handshake_request "localhost" 5000 "/" =
      ("GET ws://localhost:5000/ HTTP /1.1\r\n" ++
        "Host:localhost:5000\r\n" ++
        "Connection: Upgrade\r\n" ++
        "Upgrade: websocket\r\n" ++
        "Origin: null\r\n" ++
        "Sec-WebSocket-Version: 13\r\n" ++
        "Sec-WebSocket-Key: l3ghee7Qd0GV/SLU1K6P7g==\r\n\r\n").toList ∧
    ¬ ∃ target : List Char,
      "GET ".toList ++ target ++ " HTTP/1.1\r\n".toList <+:
        handshake_request "localhost" 5000 "/" := by
  refine ⟨by rfl, ?_⟩
  rintro ⟨target, h⟩
  have hin : " HTTP/1.1\r\n".toList <:+: handshake_request "localhost" 5000 "/" :=
    (List.suffix_append _ _).isInfix.trans h.isInfix
  have hno : ¬ " HTTP/1.1\r\n".toList <:+: handshake_request "localhost" 5000 "/" := by
    set_option maxRecDepth 8000 in decide
  exact hno hin

/-- The mask byte the decoder reads at index `i % 4` of a 4-byte key. -/
theorem byte_string_at_key (K : List Nat) (hK : K.length = 4) (i : Nat) :
    byte_string_at K (i % 4) = some (K.getD (i % 4) 0) := by
  have h : i % 4 < K.length := by rw [hK]; exact Nat.mod_lt _ (by decide)
  unfold byte_string_at
  rw [List.getElem?_append_left h, List.getD_eq_getElem?_getD, List.getElem?_eq_getElem h]
  rfl

/-- The unmasking loop undoes the masking loop from any index on. -/
theorem unmask_mask_payload (K : List Nat) (hK : K.length = 4) (P : List Nat) :
    ∀ i, unmask K i (mask_payload K i P) = some P := by
  induction P with
  | nil => intro i; rfl
  | cons p ps ih =>
    intro i
    simp only [mask_payload, unmask, byte_string_at_key K hK, ih (i + 1)]
    rw [Nat.xor_assoc, Nat.xor_self, Nat.xor_zero]

/-- C18 (masking is an involution): for every byte sequence `P` and every
4-byte key `K`, the unmasking loop of the decoder applied with `K` to the
output of the masking loop of the encoder gives `P` back, and the masked
sequence has the length of `P`. -/
theorem masking_involution (P K : List Nat) (hK : K.length = 4) :
    unmask K 0 (mask_payload K 0 P) = some P ∧ (mask_payload K 0 P).length = P.length :=
  ⟨unmask_mask_payload K hK P 0, mask_payload_length K P 0⟩

/-- C18 at the payload `48 00 FF` and the key `41 00 FF 01`. -/
theorem masking_involution_witness :
    unmask [0x41, 0x00, 0xFF, 0x01] 0 (mask_payload [0x41, 0x00, 0xFF, 0x01] 0 [0x48, 0x00, 0xFF])
        = some [0x48, 0x00, 0xFF] ∧
      (mask_payload [0x41, 0x00, 0xFF, 0x01] 0 [0x48, 0x00, 0xFF]).length =
        [0x48, 0x00, 0xFF].length :=
  masking_involution [0x48, 0x00, 0xFF] [0x41, 0x00, 0xFF, 0x01] rfl

/-! ## What `receive_partial_frame` returns -/

/-- A `recv` that does not fail hands over between 1 and `len` pending bytes,
whatever `len`. -/
theorem recv_some (c : Conn) (len : Nat) (h1 : 1 ≤ len) (hs : 1 ≤ c.stream.length)
    (hp : no_error c.plan) :
    ∃ k plan', 1 ≤ k ∧ k ≤ len ∧ k ≤ c.stream.length ∧ no_error plan' ∧
      recv c len = ((k : Int), c.stream.take k,
        { stream := c.stream.drop k, plan := plan', calls := c.calls }) := by
  have hm : 1 ≤ MAX_RW_COUNT := by decide
  rcases c with ⟨stream, plan, calls⟩
  change 1 ≤ stream.length at hs
  cases plan with
  | nil =>
    refine ⟨min (min len MAX_RW_COUNT) stream.length, [], ?_, ?_, ?_, ?_, ?_⟩
    · omega
    · omega
    · exact Nat.min_le_right _ _
    · simp [no_error]
    · simp only [recv]
  | cons s rest =>
    cases s with
    | error => exact absurd rfl (hp _ (List.mem_cons_self _ _))
    | chunk k =>
      refine ⟨min (max k 1) (min (min len MAX_RW_COUNT) stream.length), rest, ?_, ?_, ?_, ?_, ?_⟩
      · omega
      · omega
      · exact Nat.le_trans (Nat.min_le_right _ _) (Nat.min_le_right _ _)
      · intro s hs'
        exact hp s (List.mem_cons_of_mem _ hs')
      · simp only [recv]

/-- When exactly the bytes still to be read are pending and the terminator
after them stays inside the block, the loop ends normally with all of them
stored, however they are chunked. -/
theorem receive_loop_exact (n : Nat) (hn : n < 2 ^ 31) (hu : n < usable_size n) :
    ∀ (fuel total : Nat) (buffer : List Nat) (c : Conn),
      total + c.stream.length = n → c.stream.length ≤ fuel → no_error c.plan →
      ∃ plan', receive_loop (n : Int) fuel (total : Int) buffer c =
        ({ stream := [], plan := plan', calls := c.calls }, .ok (buffer ++ c.stream)) := by
  intro fuel
  induction fuel with
  | zero =>
    intro total buffer c ht hf _
    rcases c with ⟨stream, plan, calls⟩
    have hs : stream = [] := List.length_eq_zero.mp (by simpa using hf)
    subst hs
    have : ¬ ((total : Int) < (n : Int)) := by simp at ht; omega
    exact ⟨plan, by simp [receive_loop, this]⟩
  | succ fuel ih =>
    intro total buffer c ht hf hp
    by_cases hlt : total < n
    · obtain ⟨k, plan1, hk1, hk2, hk3, hp1, hr⟩ := recv_some c n (by omega) (by omega) hp
      obtain ⟨plan2, hl⟩ := ih (total + k) (buffer ++ c.stream.take k)
        { stream := c.stream.drop k, plan := plan1, calls := c.calls }
        (by simp only [List.length_drop]; omega) (by simp only [List.length_drop]; omega) hp1
      refine ⟨plan2, ?_⟩
      have c1 : (total : Int) < (n : Int) := by omega
      have c2 : ¬ ((k : Int) ≤ 0) := by omega
      have c3 : ¬ ((2 : Int) ^ 31 ≤ (total : Int) + (k : Int)) := by
        have : (2 : Int) ^ 31 = 2147483648 := by norm_num
        have : (2 : Nat) ^ 31 = 2147483648 := by norm_num
        omega
      have c4 : ¬ ((usable_size n : Int) ≤ (total : Int) + (k : Int)) := by omega
      have e : (total : Int) + (k : Int) = ((total + k : Nat) : Int) := by push_cast; rfl
      simp only [receive_loop, c1, if_true, Int.toNat_ofNat, hr, c2, if_false, c3, c4]
      rw [e, hl]
      simp only [List.append_assoc, List.take_append_drop]
    · rcases c with ⟨stream, plan, calls⟩
      have hs : stream = [] := List.length_eq_zero.mp (by simp at ht; omega)
      subst hs
      have : ¬ ((total : Int) < (n : Int)) := by omega
      exact ⟨plan, by simp [receive_loop, this]⟩

/-- The string built from a buffer is a prefix without zero byte, followed in
the buffer by nothing or by a zero byte. -/
theorem c_string_prefix (bytes : List Nat) :
    (∃ rest, bytes = c_string (bytes ++ [0]) ++ rest ∧ (rest = [] ∨ rest.head? = some 0)) ∧
      0 ∉ c_string (bytes ++ [0]) ∧
      (0 ∈ bytes → (c_string (bytes ++ [0])).length < bytes.length) := by
  induction bytes with
  | nil => simp [c_string]
  | cons b bs ih =>
    by_cases hb : b = 0
    · subst hb
      simp [c_string]
    · obtain ⟨⟨rest, h1, h2⟩, h3, h4⟩ := ih
      have e : c_string (b :: bs ++ [0]) = b :: c_string (bs ++ [0]) := by
        simp [c_string, List.takeWhile_cons, hb]
      rw [e]
      refine ⟨⟨rest, ?_, h2⟩, ?_, ?_⟩
      · simp only [List.cons_append]
        rw [← h1]
      · intro hmem
        rcases List.mem_cons.mp hmem with h | h
        · exact hb h.symm
        · exact h3 h
      · intro hmem
        have : 0 ∈ bs := by
          rcases List.mem_cons.mp hmem with h | h
          · exact absurd h.symm hb
          · exact h
        simp only [List.length_cons]
        have := h4 this
        omega

/-- With a size beyond the range of `int` the loop never ends normally. -/
theorem receive_loop_beyond_int (n : Int) (hn : 2 ^ 31 ≤ n) :
    ∀ (fuel : Nat) (total : Int) (buffer : List Nat) (c : Conn), total < 2 ^ 31 →
      ∃ e, (receive_loop n fuel total buffer c).2 = .error e := by
  intro fuel
  induction fuel with
  | zero =>
    intro total buffer c ht
    have : total < n := by omega
    exact ⟨Fault.indeterminate, by simp [receive_loop, this]⟩
  | succ fuel ih =>
    intro total buffer c ht
    have hlt : total < n := by omega
    rw [receive_loop]
    simp only [hlt, if_true]
    rcases recv c n.toNat with ⟨bytes_read, stored, c1⟩
    simp only []
    split_ifs with h1 h2 h3 h4
    · exact ⟨_, rfl⟩
    · exact ⟨_, rfl⟩
    · exact ⟨_, rfl⟩
    · exact ⟨_, rfl⟩
    · exact ih _ _ _ (by omega)

/-- With a size beyond the range of `int`, `receive_partial_frame` returns
no string. -/
theorem receive_partial_frame_beyond_int (n : Int) (hn : 2 ^ 31 ≤ n) (c : Conn) :
    ∃ e, (receive_partial_frame n c).2 = .error e := by
  unfold receive_partial_frame
  split_ifs
  · exact ⟨_, rfl⟩
  · exact ⟨_, rfl⟩
  · obtain ⟨e, he⟩ := receive_loop_beyond_int n hn n.toNat 0 [] c (by norm_num)
    refine ⟨e, ?_⟩
    split
    · rename_i heq
      rw [heq] at he
      exact he
    · rename_i heq
      rw [heq] at he
      cases he
    · rename_i heq
      rw [heq] at he
      cases he

/-- When exactly `N` bytes are pending, `1 ≤ N < 2^31`, and the terminator
stored at `buffer[N]` stays inside the block, `receive_partial_frame(N)`
returns the prefix of those bytes up to, and not including, the first byte
equal to 0x00, however the bytes are chunked. -/
theorem receive_partial_frame_exact (bytes : List Nat) (plan : List RecvStep)
    (calls : List (Nat × List Nat)) (h1 : 1 ≤ bytes.length) (hn : bytes.length < 2 ^ 31)
    (hu : bytes.length < usable_size bytes.length) (hp : no_error plan) :
    ∃ plan' result,
      receive_partial_frame (bytes.length : Int) ⟨bytes, plan, calls⟩ =
        (⟨[], plan', calls⟩, .ok result) ∧
      (∃ rest, bytes = result ++ rest ∧ (rest = [] ∨ rest.head? = some 0)) ∧
      0 ∉ result ∧
      (0 ∈ bytes → result.length < bytes.length) := by
  obtain ⟨plan', hl⟩ := receive_loop_exact bytes.length hn hu bytes.length 0 []
    ⟨bytes, plan, calls⟩ (by simp) (by simp) hp
  obtain ⟨hpre, hz, hlen⟩ := c_string_prefix bytes
  refine ⟨plan', c_string (bytes ++ [0]), ?_, hpre, hz, hlen⟩
  have hneg : ¬ ((bytes.length : Int) < 0) := by omega
  have hmax : ¬ ((ALLOC_MAX : Int) < (bytes.length : Int)) := by
    have : (2 : Nat) ^ 31 ≤ ALLOC_MAX := by decide
    omega
  have hl2 : receive_loop (bytes.length : Int) bytes.length 0 [] ⟨bytes, plan, calls⟩ =
      (⟨[], plan', calls⟩, .ok bytes) := by
    simpa using hl
  cases bytes with
  | nil => simp at h1
  | cons b bs =>
    simp only [receive_partial_frame, hneg, hmax, if_false, Int.toNat_ofNat, hl2]

/-- C19 (NUL truncation of reads), evaluated where it fails: with `N = 24`
and 24 bytes delivered, none of them zero, `receive_partial_frame(24)` stores
the terminator at `buffer[24]`, outside the 24 bytes of
`new unsigned char[24]` and outside its block, and returns no string; with
`N = 23` the same bytes but one are returned.  A TEXT frame of 24 payload
bytes is lost the same way. -/
theorem nul_truncation_overruns :
    usable_size 24 = 24 ∧
    receive_partial_frame 24
        (inbound [0x41, 0x42, 0x43, 0x44, 0x45, 0x46, 0x47, 0x48, 0x49, 0x4A, 0x4B, 0x4C,
          0x4D, 0x4E, 0x4F, 0x50, 0x51, 0x52, 0x53, 0x54, 0x55, 0x56, 0x57, 0x58]) =
      (⟨[], [], []⟩, .error .overrun) ∧
    receive_partial_frame 23
        (inbound [0x41, 0x42, 0x43, 0x44, 0x45, 0x46, 0x47, 0x48, 0x49, 0x4A, 0x4B, 0x4C,
          0x4D, 0x4E, 0x4F, 0x50, 0x51, 0x52, 0x53, 0x54, 0x55, 0x56, 0x57]) =
      (⟨[], [], []⟩, .ok [0x41, 0x42, 0x43, 0x44, 0x45, 0x46, 0x47, 0x48, 0x49, 0x4A, 0x4B,
          0x4C, 0x4D, 0x4E, 0x4F, 0x50, 0x51, 0x52, 0x53, 0x54, 0x55, 0x56, 0x57]) ∧
    receive_frame
        (inbound [0x81, 0x18, 0x41, 0x42, 0x43, 0x44, 0x45, 0x46, 0x47, 0x48, 0x49, 0x4A,
          0x4B, 0x4C, 0x4D, 0x4E, 0x4F, 0x50, 0x51, 0x52, 0x53, 0x54, 0x55, 0x56, 0x57,
          0x58]) =
      (⟨[], [], []⟩, .error .overrun) := by
  decide

/-! ## Dependence on the bytes read -/

/-- The count a `recv` returns and the plan it leaves depend on the length of
the pending stream only, not on its bytes. -/
theorem recv_shape (plan : List RecvStep) (calls : List (Nat × List Nat)) (L len : Nat) :
    ∃ (r : Int) (k : Nat) (plan' : List RecvStep), k ≤ L ∧ (r ≤ 0 → k = 0) ∧
      (0 < r → r = (k : Int)) ∧
      ∀ s : List Nat, s.length = L →
        recv ⟨s, plan, calls⟩ len = (r, s.take k, ⟨s.drop k, plan', calls⟩) := by
  cases plan with
  | nil =>
    refine ⟨((min (min len MAX_RW_COUNT) L : Nat) : Int), min (min len MAX_RW_COUNT) L, [],
      Nat.min_le_right _ _, by omega, by omega, ?_⟩
    intro s hs
    simp only [recv, hs]
  | cons st rest =>
    cases st with
    | error =>
      refine ⟨-1, 0, rest, Nat.zero_le _, by omega, by omega, ?_⟩
      intro s _
      simp only [recv, List.take_zero, List.drop_zero]
    | chunk c =>
      refine ⟨((min (max c 1) (min (min len MAX_RW_COUNT) L) : Nat) : Int),
        min (max c 1) (min (min len MAX_RW_COUNT) L), rest,
        Nat.le_trans (Nat.min_le_right _ _) (Nat.min_le_right _ _), by omega, by omega, ?_⟩
      intro s hs
      simp only [recv, hs]

/-- The course of the read loop depends on the length of the pending stream
only: the number `t` of bytes consumed, the plan left and the way the loop
ends are the same for all streams of one length. -/
theorem receive_loop_shape (n : Int) (calls : List (Nat × List Nat)) :
    ∀ (fuel : Nat) (total : Int) (L : Nat) (plan : List RecvStep),
      ∃ (t : Nat) (plan' : List RecvStep) (res : Option Fault), t ≤ L ∧
        ∀ s buffer : List Nat, s.length = L →
          receive_loop n fuel total buffer ⟨s, plan, calls⟩ =
            (⟨s.drop t, plan', calls⟩,
              match res with
              | none => .ok (buffer ++ s.take t)
              | some e => .error e) := by
  intro fuel
  induction fuel with
  | zero =>
    intro total L plan
    by_cases hc : total < n
    · refine ⟨0, plan, some Fault.indeterminate, Nat.zero_le _, ?_⟩
      intro s buffer _
      simp [receive_loop, hc]
    · refine ⟨0, plan, none, Nat.zero_le _, ?_⟩
      intro s buffer _
      simp [receive_loop, hc]
  | succ fuel ih =>
    intro total L plan
    by_cases hc : total < n
    · obtain ⟨r, k, plan1, hk, hr0, hr1, hrecv⟩ := recv_shape plan calls L n.toNat
      by_cases h0 : r ≤ 0
      · have hk0 : k = 0 := hr0 h0
        subst hk0
        by_cases h00 : r = 0
        · subst h00
          refine ⟨0, plan1, some Fault.hungup, Nat.zero_le _, ?_⟩
          intro s buffer hs
          rw [receive_loop]
          simp only [hc, if_true, hrecv s hs, le_refl]
        · refine ⟨0, plan1, some Fault.transport_error, Nat.zero_le _, ?_⟩
          intro s buffer hs
          rw [receive_loop]
          simp only [hc, if_true, hrecv s hs, h0, h00, if_false]
      · have hrk : r = (k : Int) := hr1 (by omega)
        by_cases h1 : 2 ^ 31 ≤ total + r
        · refine ⟨k, plan1, some Fault.indeterminate, hk, ?_⟩
          intro s buffer hs
          rw [receive_loop]
          simp only [hc, if_true, hrecv s hs, h0, if_false, h1]
        · by_cases h2 : (usable_size n.toNat : Int) ≤ total + r
          · refine ⟨k, plan1, some Fault.overrun, hk, ?_⟩
            intro s buffer hs
            rw [receive_loop]
            simp only [hc, if_true, hrecv s hs, h0, if_false, h1, h2]
          · obtain ⟨t, plan2, res, ht, hl⟩ := ih (total + r) (L - k) plan1
            refine ⟨k + t, plan2, res, by omega, ?_⟩
            intro s buffer hs
            rw [receive_loop]
            simp only [hc, if_true, hrecv s hs, h0, if_false, h1, h2]
            rw [hl (s.drop k) (buffer ++ s.take k) (by simp only [List.length_drop]; omega)]
            simp only [List.drop_drop, List.append_assoc, ← List.take_add]
    · refine ⟨0, plan, none, Nat.zero_le _, ?_⟩
      intro s buffer _
      rw [receive_loop]
      simp [hc]

/-- The course of `receive_partial_frame` depends on the length of the pending
stream only; when it returns, it returns the string built from the `t ≥ 1`
bytes consumed. -/
theorem receive_partial_frame_shape (n : Int) (calls : List (Nat × List Nat)) (L : Nat)
    (plan : List RecvStep) :
    ∃ (t : Nat) (plan' : List RecvStep) (res : Option Fault), t ≤ L ∧ (res = none → 1 ≤ t) ∧
      ∀ s : List Nat, s.length = L →
        receive_partial_frame n ⟨s, plan, calls⟩ =
          (⟨s.drop t, plan', calls⟩,
            match res with
            | none => .ok (c_string (s.take t ++ [0]))
            | some e => .error e) := by
  by_cases hneg : n < 0
  · refine ⟨0, plan, some Fault.bad_array_new_length, Nat.zero_le _, by simp, ?_⟩
    intro s _
    simp [receive_partial_frame, hneg]
  by_cases hmax : (ALLOC_MAX : Int) < n
  · refine ⟨0, plan, some Fault.bad_alloc, Nat.zero_le _, by simp, ?_⟩
    intro s _
    simp [receive_partial_frame, hneg, hmax]
  · obtain ⟨t, plan1, res, ht, hl⟩ := receive_loop_shape n calls n.toNat 0 L plan
    cases res with
    | some e =>
      refine ⟨t, plan1, some e, ht, by simp, ?_⟩
      intro s hs
      simp only [receive_partial_frame, hneg, hmax, if_false, hl s [] hs]
    | none =>
      by_cases ht0 : t = 0
      · subst ht0
        refine ⟨0, plan1, some Fault.indeterminate, ht, by simp, ?_⟩
        intro s hs
        simp only [receive_partial_frame, hneg, hmax, if_false, hl s [] hs, List.take_zero,
          List.append_nil]
      · refine ⟨t, plan1, none, ht, fun _ => by omega, ?_⟩
        intro s hs
        have hne : s.take t ≠ [] := by
          intro h
          have := congrArg List.length h
          simp only [List.length_take, List.length_nil] at this
          omega
        obtain ⟨b, bs, hb⟩ := List.exists_cons_of_ne_nil hne
        simp only [receive_partial_frame, hneg, hmax, if_false, hl s [] hs, List.nil_append,
          hb]

/-- The string built from a buffer that starts with a non-zero byte. -/
theorem c_string_cons (b : Nat) (m : List Nat) (hb : b ≠ 0) :
    c_string (b :: m) = b :: c_string m := by
  simp [c_string, List.takeWhile_cons, hb]

/-- Byte 0 of the string built from a buffer is byte 0 of the buffer. -/
theorem byte_string_at_zero (b : Nat) (m : List Nat) :
    byte_string_at (c_string (b :: m)) 0 = some b := by
  by_cases hb : b = 0
  · subst hb
    simp [c_string, byte_string_at]
  · simp [c_string_cons b m hb, byte_string_at]

/-- Index 0 of a non-empty string is its first byte. -/
theorem byte_string_at_head (b : Nat) (s : List Nat) : byte_string_at (b :: s) 0 = some b := by
  simp [byte_string_at]

/-- Index 1 of a string is index 0 of its tail. -/
theorem byte_string_at_one (b : Nat) (s : List Nat) :
    byte_string_at (b :: s) 1 = byte_string_at s 0 := by
  simp [byte_string_at]

/-- C20 (reserved bits are ignored): for every two inbound streams that differ
only in bits 6, 5, 4 of the first header byte (bit 7 and the low four bits
agree), on the same transport, `receive_frame` ends the same way -- it fails
with the same error or returns normally -- and leaves the same callback
trace, so it invokes the callback with the same opcode and payload. -/
theorem reserved_bits_ignored (b0 b0' : Nat) (rest : List Nat) (plan : List RecvStep)
    (calls : List (Nat × List Nat)) (hb : b0 < 256) (hb' : b0' < 256)
    (hfin : b0 / 128 = b0' / 128) (hop : b0 % 16 = b0' % 16) :
    (receive_frame ⟨b0 :: rest, plan, calls⟩).2 = (receive_frame ⟨b0' :: rest, plan, calls⟩).2 ∧
      (receive_frame ⟨b0 :: rest, plan, calls⟩).1.calls =
        (receive_frame ⟨b0' :: rest, plan, calls⟩).1.calls := by
  obtain ⟨t, plan1, res, ht, ht1, hrpf⟩ :=
    receive_partial_frame_shape 2 calls (rest.length + 1) plan
  have e1 := hrpf (b0 :: rest) (by simp)
  have e2 := hrpf (b0' :: rest) (by simp)
  cases res with
  | some e =>
    simp only [receive_frame, e1, e2, and_self]
  | none =>
    obtain ⟨t', rfl⟩ : ∃ t', t = t' + 1 := ⟨t - 1, by have := ht1 rfl; omega⟩
    simp only [List.take_succ_cons, List.drop_succ_cons, List.cons_append] at e1 e2
    by_cases hF : b0 < 128
    · have hF' : b0' < 128 := by omega
      simp only [receive_frame, e1, e2, byte_string_at_zero, Option.getD_some,
        fin_bit _ hb, fin_bit _ hb', hF, hF', if_true, true_or, and_self]
    · have hF' : ¬ b0' < 128 := by omega
      have z : b0 ≠ 0 := by omega
      have z' : b0' ≠ 0 := by omega
      simp only [receive_frame, e1, e2, byte_string_at_zero, Option.getD_some,
        fin_bit _ hb, fin_bit _ hb', hF, hF', if_false, opcode_bits, c_string_cons _ _ z,
        c_string_cons _ _ z', byte_string_at_one, byte_string_at_head, hop, and_self]

/-- C20 at the masked TEXT frame `81 81 01 02 03 04 49` and the same frame
with the three reserved bits set. -/
theorem reserved_bits_ignored_witness :
    (receive_frame ⟨0x81 :: [0x81, 0x01, 0x02, 0x03, 0x04, 0x49], [], []⟩).2 =
        (receive_frame ⟨0xF1 :: [0x81, 0x01, 0x02, 0x03, 0x04, 0x49], [], []⟩).2 ∧
      (receive_frame ⟨0x81 :: [0x81, 0x01, 0x02, 0x03, 0x04, 0x49], [], []⟩).1.calls =
        (receive_frame ⟨0xF1 :: [0x81, 0x01, 0x02, 0x03, 0x04, 0x49], [], []⟩).1.calls :=
  reserved_bits_ignored 0x81 0xF1 [0x81, 0x01, 0x02, 0x03, 0x04, 0x49] [] []
    (by decide) (by decide) (by decide) (by decide)

/-- The header lines of the request and its end, for every host, port and
endpoint: the lines `Connection: Upgrade`, `Upgrade: websocket`,
`Sec-WebSocket-Version: 13`, a `Sec-WebSocket-Key: ` line, and `\r\n\r\n` as
the last bytes. -/
theorem handshake_request_headers (host : String) (port : Int) (endpoint : String) :
    "Connection: Upgrade\r\n".toList <:+: handshake_request host port endpoint ∧
      "Upgrade: websocket\r\n".toList <:+: handshake_request host port endpoint ∧
      "Sec-WebSocket-Version: 13\r\n".toList <:+: handshake_request host port endpoint ∧
      "Sec-WebSocket-Key: ".toList <:+: handshake_request host port endpoint ∧
      "\r\n\r\n".toList <:+ handshake_request host port endpoint := by
  have pre : ∀ {Z X : List Char} (Y : List Char), Z <:+: X → Z <:+: X ++ Y :=
    fun Y h => h.trans (List.prefix_append _ Y).isInfix
  have suf : ∀ {Z Y : List Char} (X : List Char), Z <:+: Y → Z <:+: X ++ Y :=
    fun X h => h.trans (List.suffix_append X _).isInfix
  simp only [handshake_request, String.toList, String.data_append]
  refine ⟨?_, ?_, ?_, ?_, ?_⟩
  · exact pre _ (pre _ (pre _ (pre _ (suf _ (List.infix_refl _)))))
  · exact pre _ (pre _ (pre _ (suf _ (List.infix_refl _))))
  · exact pre _ (suf _ (List.infix_refl _))
  · exact suf _ (List.IsPrefix.isInfix (by decide))
  · exact List.IsSuffix.trans (by decide) (List.suffix_append _ _)

end websocket_client
